import Mathlib

/-!
Shallow embedding of `src/picobot/simulator.py` (the Picobot simulator).

Conventions used throughout:
* Python `int` grid coordinates are modelled as `Int` (moves may leave the
  grid; the code checks bounds before indexing).
* Python `set` of positions is modelled as `Finset (Int × Int)`.
* Python `float` percentages are modelled as exact rationals `Rat`
  (the code only forms `100 * len(visited) / total`).
* Python exceptions (`ValueError`) are modelled as `Except String`,
  carrying the same message text the code formats.
* `re` character classes `\d` and `\s` are modelled by their ASCII subsets,
  which is exact for the rule texts the grammar describes.
* The `MOVE_VECTORS` dict is modelled as a total function agreeing with the
  dict on its keys `N`, `E`, `W`, `S`, `X`; a lookup outside the key set
  raises `KeyError` in Python, so theorems that exercise movement restrict
  the quantified rule lists to directions in the key set (which is also the
  invariant the parser guarantees).
-/

namespace PicobotSim

/-- A single quote character, kept as a named constant for message building. -/
def squote : Char := Char.ofNat 39

/-- `class Cell(Enum)`: EMPTY = 0, WALL = 1. -/
inductive Cell where
  | EMPTY : Cell
  | WALL : Cell
deriving DecidableEq, Repr

/-- `class Room`: a 2D grid of cells.  `height`/`width` are derived from the
grid exactly as `__init__` computes them (`len(grid)`, `len(grid[0])`). -/
structure Room where
  grid : List (List Cell)
deriving DecidableEq, Repr

def Room.height (room : Room) : Nat := room.grid.length

def Room.width (room : Room) : Nat := (room.grid.headD []).length

/-- The validation `Room.__init__` performs: the grid is non-empty, `grid[0]`
is non-empty, and all rows have the same length. -/
def Room.Valid (room : Room) : Prop :=
  room.grid ≠ [] ∧ 0 < room.width ∧ ∀ row ∈ room.grid, row.length = room.width

/-- The stored cell at a (row, col) pair of non-negative in-range indices;
out-of-range lookups give `Cell.WALL`, matching the fact that the Python code
only indexes after its bounds check. -/
def Room.cellAt (room : Room) (row col : Nat) : Cell :=
  (room.grid.getD row []).getD col Cell.WALL

/-- `Room.is_wall`: out of bounds is treated as a wall, otherwise the stored
cell is compared with `Cell.WALL`. -/
def Room.is_wall (room : Room) (row col : Int) : Bool :=
  if row < 0 ∨ (room.height : Int) ≤ row ∨ col < 0 ∨ (room.width : Int) ≤ col then
    true
  else
    room.cellAt row.toNat col.toNat == Cell.WALL

/-- `Room.is_empty`. -/
def Room.is_empty (room : Room) (row col : Int) : Bool :=
  !room.is_wall row col

/-- `Room.count_empty_cells`: iterates the stored rows directly. -/
def Room.count_empty_cells (room : Room) : Nat :=
  (room.grid.map (fun row => row.countP (fun c => c == Cell.EMPTY))).sum

/-- `Room.get_empty_cells`: iterates `range(height) × range(width)` in
row-major order and keeps coordinates whose stored cell is `EMPTY`. -/
def Room.get_empty_cells (room : Room) : List (Int × Int) :=
  (List.range room.height).flatMap (fun r =>
    (List.range room.width).filterMap (fun c =>
      if room.cellAt r c == Cell.EMPTY then some ((r : Int), (c : Int)) else none))

/-- `@dataclass class Rule`. The pattern is the stored 4-character string,
kept as a `List Char`. -/
structure Rule where
  state : Nat
  surroundings_pattern : List Char
  direction : Char
  new_state : Nat
  line_number : Nat := 0
deriving DecidableEq, Repr

/-- `Rule.matches`: the state must match exactly; pattern and surroundings
are walked in lockstep (`zip`), a `*` slot matches anything, any other slot
must equal the observed character. -/
def Rule.matches (rule : Rule) (current_state : Nat) (surroundings : List Char) : Bool :=
  if current_state ≠ rule.state then
    false
  else
    (rule.surroundings_pattern.zip surroundings).all
      (fun pc => pc.1 == '*' || pc.1 == pc.2)

/-- `Rule.__str__`: `f"{state} {pattern} -> {direction} {new_state}"`,
as a character list. -/
def renderRule (rule : Rule) : List Char :=
  (Nat.repr rule.state).toList ++ ' ' :: rule.surroundings_pattern ++
    ' ' :: '-' :: '>' :: ' ' :: rule.direction :: ' ' :: (Nat.repr rule.new_state).toList

/-- `str(rule)` as a `String` (used inside halt-reason messages). -/
def ruleStr (rule : Rule) : String := String.mk (renderRule rule)

/-- `Picobot.find_matching_rule`: scan the rules in order, return the first
match, or `None`. -/
def find_matching_rule (rules : List Rule) (state : Nat) (surroundings : List Char) :
    Option Rule :=
  rules.find? (fun rule => rule.matches state surroundings)

/-- `DIRECTIONS = ('N', 'E', 'W', 'S')` — the canonical NEWS order. -/
def DIRECTIONS : List Char := ['N', 'E', 'W', 'S']

/-- `MOVE_VECTORS` as (row delta, col delta); total function agreeing with
the Python dict on its keys (see the header note on `KeyError`). -/
def MOVE_VECTORS (d : Char) : Int × Int :=
  if d = 'N' then (-1, 0)
  else if d = 'E' then (0, 1)
  else if d = 'W' then (0, -1)
  else if d = 'S' then (1, 0)
  else (0, 0)

/-- The key set of `MOVE_VECTORS`; rule lists whose directions lie in this
set are exactly the ones the Python code can step without a `KeyError`. -/
def dirKeys : List Char := ['N', 'E', 'W', 'S', 'X']

/-- Directions of every rule in the list lie in the `MOVE_VECTORS` key set. -/
def WFdir (rules : List Rule) : Prop := ∀ r ∈ rules, r.direction ∈ dirKeys

/-- `@dataclass class SimulationStep`. -/
structure SimulationStep where
  step_number : Nat
  position : Int × Int
  state : Nat
  surroundings : List Char
  rule_applied : Option Rule
  new_position : Int × Int
  new_state : Nat
deriving DecidableEq, Repr

/-- The mutable fields of `class Picobot` (the `room` and `rules` are fixed
at construction and only read afterwards, but they live on `self` too). -/
structure Picobot where
  room : Room
  rules : List Rule
  position : Int × Int
  state : Nat
  visited : Finset (Int × Int)
  history : List SimulationStep
  halted : Bool
  halt_reason : String
deriving DecidableEq

/-- The state `Picobot.__init__` builds once a start position is fixed:
state 0, visited = {start}, empty history, not halted. -/
def Picobot.mkAt (room : Room) (rules : List Rule) (pos : Int × Int) : Picobot :=
  { room := room
    rules := rules
    position := pos
    state := 0
    visited := {pos}
    history := []
    halted := false
    halt_reason := "" }

/-- Message for `ValueError("Room has no empty cells!")`. -/
def noEmptyCellsMsg : String := "Room has no empty cells!"

/-- Message for the invalid-start `ValueError`. -/
def badStartMsg (row col : Int) : String :=
  String.mk ("Starting position (".toList ++ (toString row).toList ++ ", ".toList ++
    (toString col).toList ++ ") is a wall or out of bounds.".toList)

/-- `Picobot.__init__` (rules already parsed): pick the first empty cell when
no start is given, otherwise validate the given start against the grid. -/
def Picobot.init (room : Room) (rules : List Rule) (start_position : Option (Int × Int)) :
    Except String Picobot :=
  match start_position with
  | none =>
      match room.get_empty_cells with
      | [] => .error noEmptyCellsMsg
      | c :: _ => .ok (Picobot.mkAt room rules c)
  | some pos =>
      if room.is_wall pos.1 pos.2 then .error (badStartMsg pos.1 pos.2)
      else .ok (Picobot.mkAt room rules pos)

/-- `Picobot.get_surroundings`: for each NEWS direction, the direction letter
if the neighbouring cell is a wall, else the open marker. -/
def Picobot.get_surroundings (bot : Picobot) : List Char :=
  DIRECTIONS.map (fun d =>
    if bot.room.is_wall (bot.position.1 + (MOVE_VECTORS d).1)
        (bot.position.2 + (MOVE_VECTORS d).2) then d else 'x')

/-- Halt reason for the no-matching-rule case:
`f"No rule matches state {S} with surroundings {P}"`. -/
def noRuleMsg (state : Nat) (surroundings : List Char) : String :=
  String.mk ("No rule matches state ".toList ++ (Nat.repr state).toList ++
    " with surroundings ".toList ++ surroundings)

/-- Halt reason for the illegal-move case:
`f"Rule '{rule}' tried to move into wall at ({new_row}, {new_col})"`. -/
def illegalMoveMsg (rule : Rule) (new_row new_col : Int) : String :=
  String.mk ("Rule ".toList ++ squote :: renderRule rule ++ squote ::
    " tried to move into wall at (".toList ++ (toString new_row).toList ++
    ", ".toList ++ (toString new_col).toList ++ [')'])

/-- `Picobot.step`: returns the updated simulator together with the Python
return value (`True` on a successful move, `False` on halt). -/
def Picobot.step (bot : Picobot) : Picobot × Bool :=
  if bot.halted then (bot, false)
  else
    let surroundings := bot.get_surroundings
    match find_matching_rule bot.rules bot.state surroundings with
    | none =>
        ({ bot with
            halted := true
            halt_reason := noRuleMsg bot.state surroundings
            history := bot.history ++
              [{ step_number := bot.history.length
                 position := bot.position
                 state := bot.state
                 surroundings := surroundings
                 rule_applied := none
                 new_position := bot.position
                 new_state := bot.state }] }, false)
    | some rule =>
        let new_row := bot.position.1 + (MOVE_VECTORS rule.direction).1
        let new_col := bot.position.2 + (MOVE_VECTORS rule.direction).2
        if bot.room.is_wall new_row new_col then
          ({ bot with
              halted := true
              halt_reason := illegalMoveMsg rule new_row new_col
              history := bot.history ++
                [{ step_number := bot.history.length
                   position := bot.position
                   state := bot.state
                   surroundings := surroundings
                   rule_applied := some rule
                   new_position := bot.position
                   new_state := bot.state }] }, false)
        else
          ({ bot with
              position := (new_row, new_col)
              state := rule.new_state
              visited := insert (new_row, new_col) bot.visited
              history := bot.history ++
                [{ step_number := bot.history.length
                   position := bot.position
                   state := bot.state
                   surroundings := surroundings
                   rule_applied := some rule
                   new_position := (new_row, new_col)
                   new_state := rule.new_state }] }, true)

/-- The dict `Picobot.run` returns. -/
structure RunResult where
  success : Bool
  steps : Nat
  coverage : Rat
  visited : Nat
  total : Nat
  halted : Bool
  halt_reason : String
deriving DecidableEq, Repr

/-- The `for step in range(max_steps)` loop of `Picobot.run`: check coverage
(when requested), otherwise take one step; stop on a failed step.  The `Nat`
accumulator is Python's `steps_taken` (number of `step()` calls made). -/
def Picobot.runAux : Picobot → Nat → Bool → Nat → Nat → Picobot × Nat
  | bot, _, _, taken, 0 => (bot, taken)
  | bot, total_empty, stop, taken, fuel + 1 =>
      if stop && decide (total_empty ≤ bot.visited.card) then (bot, taken)
      else
        let r := bot.step
        if r.2 then Picobot.runAux r.1 total_empty stop (taken + 1) fuel
        else (r.1, taken + 1)

/-- `Picobot.run`: loop, then compile the result dictionary.  Note that the
code computes `coverage` as `100 * len(visited) / total_empty` with no guard
on `total_empty = 0` (Python would raise `ZeroDivisionError` there; see the
constructed-bot invariant `1 ≤ count_empty_cells` proved below). -/
def Picobot.run (bot : Picobot) (max_steps : Nat) (stop_on_full_coverage : Bool) :
    Picobot × RunResult :=
  let total_empty := bot.room.count_empty_cells
  let r := bot.runAux total_empty stop_on_full_coverage 0 max_steps
  (r.1,
    { success := decide (total_empty ≤ r.1.visited.card)
      steps := r.2
      coverage := 100 * (r.1.visited.card : Rat) / (total_empty : Rat)
      visited := r.1.visited.card
      total := total_empty
      halted := r.1.halted
      halt_reason := r.1.halt_reason })

/-- `Picobot.coverage_percent`: guarded percentage. -/
def Picobot.coverage_percent (bot : Picobot) : Rat :=
  let total := bot.room.count_empty_cells
  if total = 0 then 100
  else 100 * (bot.visited.card : Rat) / (total : Rat)

/-- `Picobot.is_complete`. -/
def Picobot.is_complete (bot : Picobot) : Bool :=
  decide (bot.room.count_empty_cells ≤ bot.visited.card)

/-- The dict `test_rules_all_positions` returns. -/
structure AllPositionsResult where
  success : Bool
  positions_tested : Nat
  positions_passed : Nat
  failures : List ((Int × Int) × RunResult)
  max_steps_used : Nat
  avg_steps : Rat
deriving DecidableEq, Repr

/-- `test_rules_all_positions`: run a fresh simulator from every empty cell
(in `get_empty_cells` order) and aggregate.  Each start position comes from
`get_empty_cells`, so the constructor validation `is_wall` always passes
(lemma `init_of_empty_cell` below) and the fresh bot is `mkAt`. -/
def test_rules_all_positions (room : Room) (rules : List Rule) (max_steps : Nat) :
    AllPositionsResult :=
  let cells := room.get_empty_cells
  let results := cells.map (fun pos => (pos, ((Picobot.mkAt room rules pos).run max_steps true).2))
  let failures := results.filter (fun pr => !pr.2.success)
  let steps_list := (results.filter (fun pr => pr.2.success)).map (fun pr => pr.2.steps)
  { success := failures.isEmpty
    positions_tested := cells.length
    positions_passed := (results.filter (fun pr => pr.2.success)).length
    failures := failures
    max_steps_used := if steps_list.isEmpty then 0 else steps_list.foldl Nat.max 0
    avg_steps := if steps_list.isEmpty then 0 else (steps_list.sum : Rat) / (steps_list.length : Rat) }

/-! ### The rule parser (`parse_rules`)

The regex
`^(\d+)\s+([NEWSxX*]{4})\s*->\s*([NEWSX])\s+(\d+)\s*$` (IGNORECASE)
is deterministic: every adjacent pair of sub-patterns draws from disjoint
character classes, so greedy matching without backtracking — implemented
below with `takeWhile`/`dropWhile` — recognises exactly the same lines. -/

/-- Python `\s` (ASCII subset). -/
def isPySpace (c : Char) : Bool :=
  c == ' ' || c == '\t' || c == '\n' || c == '\r' || c == '\x0b' || c == '\x0c'

/-- Python `\d` (ASCII subset). -/
def isDigitC (c : Char) : Bool := '0' ≤ c && c ≤ '9'

/-- Python `str.strip()`. -/
def pyStrip (l : List Char) : List Char :=
  ((l.dropWhile isPySpace).reverse.dropWhile isPySpace).reverse

/-- Python `str.split('\n')`. -/
def splitNl : List Char → List (List Char)
  | [] => [[]]
  | c :: rest =>
      if c = '\n' then [] :: splitNl rest
      else
        match splitNl rest with
        | [] => [[c]]
        | l :: ls => (c :: l) :: ls

/-- Python `'\n'.join(...)` (used to feed rendered rules back to the parser). -/
def joinNl : List (List Char) → List Char
  | [] => []
  | [l] => l
  | l :: l2 :: ls => l ++ '\n' :: joinNl (l2 :: ls)

/-- Python `int(...)` on a non-empty string of decimal digits. -/
def digitsToNat (ds : List Char) : Nat :=
  ds.foldl (fun a c => a * 10 + (c.toNat - 48)) 0

/-- The character class `[NEWSxX*]` under IGNORECASE. -/
def classChar (c : Char) : Bool :=
  c ∈ (['N', 'E', 'W', 'S', 'x', 'X', '*', 'n', 'e', 'w', 's'] : List Char)

/-- The character class `[NEWSX]` under IGNORECASE. -/
def dirChar (c : Char) : Bool :=
  c ∈ (['N', 'E', 'W', 'S', 'X', 'n', 'e', 'w', 's', 'x'] : List Char)

/-- Match one (already comment-stripped, whitespace-stripped) line against the
rule regex; on success return the STATE digits, the 4 raw pattern characters,
the raw DIRECTION character and the NEWSTATE digits. -/
def matchRuleLine (l : List Char) : Option (List Char × List Char × Char × List Char) :=
  let d1 := l.takeWhile isDigitC
  let r1 := l.dropWhile isDigitC
  let s1 := r1.takeWhile isPySpace
  let r2 := r1.dropWhile isPySpace
  if d1.isEmpty || s1.isEmpty then none
  else
    match r2 with
    | p1 :: p2 :: p3 :: p4 :: r3 =>
        if classChar p1 && classChar p2 && classChar p3 && classChar p4 then
          match r3.dropWhile isPySpace with
          | c1 :: c2 :: r5 =>
              if c1 = '-' ∧ c2 = '>' then
                match r5.dropWhile isPySpace with
                | d :: r7 =>
                    if dirChar d then
                      let s2 := r7.takeWhile isPySpace
                      let r8 := r7.dropWhile isPySpace
                      let d2 := r8.takeWhile isDigitC
                      let r9 := r8.dropWhile isDigitC
                      if s2.isEmpty || d2.isEmpty then none
                      else if (r9.dropWhile isPySpace).isEmpty then
                        some (d1, [p1, p2, p3, p4], d, d2)
                      else none
                    else none
                | [] => none
              else none
          | _ => none
        else none
    | _ => none

/-- The syntax `ValueError` message of `parse_rules`. -/
def syntaxErrMsg (line_num : Nat) (line : List Char) : String :=
  String.mk ("Invalid rule syntax at line ".toList ++ (Nat.repr line_num).toList ++
    ": ".toList ++ squote :: line ++ squote ::
    "\nExpected format: STATE SURROUNDINGS -> DIRECTION NEWSTATE\nExample: 0 x*** -> N 0".toList)

/-- The out-of-range STATE `ValueError` message. -/
def stateErrMsg (state line_num : Nat) : String :=
  String.mk ("Invalid state ".toList ++ (Nat.repr state).toList ++ " at line ".toList ++
    (Nat.repr line_num).toList ++ ". State must be between 0 and 99.".toList)

/-- The out-of-range NEWSTATE `ValueError` message. -/
def newStateErrMsg (new_state line_num : Nat) : String :=
  String.mk ("Invalid new_state ".toList ++ (Nat.repr new_state).toList ++ " at line ".toList ++
    (Nat.repr line_num).toList ++ ". State must be between 0 and 99.".toList)

/-- The invalid-surroundings-character `ValueError` message (unreachable for
characters coming from the regex class, but modelled faithfully). -/
def surrCharErrMsg (c : Char) (line_num : Nat) : String :=
  String.mk ("Invalid surroundings character ".toList ++ squote :: c ::
    squote :: " at line ".toList ++ (Nat.repr line_num).toList ++ ".".toList)

/-- One character of the normalization loop in `parse_rules` (the input has
already been upper-cased; `i` is the character's index). -/
def normChar (line_num i : Nat) (c : Char) : Except String Char :=
  if c = 'X' ∧ i < 4 then .ok 'x'
  else if c = '*' then .ok '*'
  else if c ∈ (['N', 'E', 'W', 'S'] : List Char) then .ok c
  else if c = 'x' then .ok 'x'
  else .error (surrCharErrMsg c line_num)

/-- The normalization loop over the (upper-cased) surroundings string. -/
def normChars (line_num : Nat) : Nat → List Char → Except String (List Char)
  | _, [] => .ok []
  | i, c :: cs =>
      match normChar line_num i c with
      | .error e => .error e
      | .ok c' =>
          match normChars line_num (i + 1) cs with
          | .error e => .error e
          | .ok rest => .ok (c' :: rest)

/-- The per-line body of `parse_rules`, recursing over the split lines with
the 1-based line counter. -/
def parseLinesAux : List (List Char) → Nat → Except String (List Rule)
  | [], _ => .ok []
  | line :: rest, line_num =>
      let noComment := line.takeWhile (fun c => c != '#')
      let stripped := pyStrip noComment
      if stripped.isEmpty then parseLinesAux rest (line_num + 1)
      else
        match matchRuleLine stripped with
        | none => .error (syntaxErrMsg line_num stripped)
        | some (d1, pat, dir, d2) =>
            let state := digitsToNat d1
            let surroundings := pat.map Char.toUpper
            let direction := dir.toUpper
            let new_state := digitsToNat d2
            if 99 < state then .error (stateErrMsg state line_num)
            else if 99 < new_state then .error (newStateErrMsg new_state line_num)
            else
              match normChars line_num 0 surroundings with
              | .error e => .error e
              | .ok normalized =>
                  match parseLinesAux rest (line_num + 1) with
                  | .error e => .error e
                  | .ok rules =>
                      .ok ({ state := state
                             surroundings_pattern := normalized
                             direction := direction
                             new_state := new_state
                             line_number := line_num } :: rules)

/-- `parse_rules`. -/
def parse_rules (rules_text : List Char) : Except String (List Rule) :=
  parseLinesAux (splitNl rules_text) 1

/-- Rendering a parsed rule list back to text: one `str(rule)` per line. -/
def renderRules (rules : List Rule) : List Char :=
  joinNl (rules.map renderRule)

/-- Decidable equality of `Except` results (componentwise). -/
instance exceptDecEq {ε α : Type} [DecidableEq ε] [DecidableEq α] :
    DecidableEq (Except ε α) := fun a b =>
  match a, b with
  | .ok x, .ok y =>
      if h : x = y then .isTrue (congrArg _ h)
      else .isFalse (fun c => h (Except.ok.inj c))
  | .error x, .error y =>
      if h : x = y then .isTrue (congrArg _ h)
      else .isFalse (fun c => h (Except.error.inj c))
  | .ok _, .error _ => .isFalse (fun c => Except.noConfusion c)
  | .error _, .ok _ => .isFalse (fun c => Except.noConfusion c)

/-! ### Generic list helpers -/

theorem takeWhile_all {α} {p : α → Bool} :
    ∀ {l : List α}, (∀ a ∈ l, p a = true) → l.takeWhile p = l := by
  intro l
  induction l with
  | nil => intro _; rfl
  | cons a l ih =>
      intro h
      rw [List.takeWhile_cons, h a (by simp), ih (fun b hb => h b (by simp [hb]))]
      simp

theorem dropWhile_all {α} {p : α → Bool} :
    ∀ {l : List α}, (∀ a ∈ l, p a = true) → l.dropWhile p = [] := by
  intro l
  induction l with
  | nil => intro _; rfl
  | cons a l ih =>
      intro h
      rw [List.dropWhile_cons, h a (by simp)]
      simp only [if_true]
      exact ih (fun b hb => h b (by simp [hb]))

theorem takeWhile_append_cons {α} {p : α → Bool} {l1 l2 : List α} {b : α}
    (h1 : ∀ a ∈ l1, p a = true) (h2 : p b = false) :
    (l1 ++ b :: l2).takeWhile p = l1 := by
  induction l1 with
  | nil => simp [List.takeWhile_cons, h2]
  | cons a l ih =>
      simp only [List.cons_append, List.takeWhile_cons, h1 a (by simp)]
      rw [ih (fun x hx => h1 x (by simp [hx]))]
      simp

theorem dropWhile_append_cons {α} {p : α → Bool} {l1 l2 : List α} {b : α}
    (h1 : ∀ a ∈ l1, p a = true) (h2 : p b = false) :
    (l1 ++ b :: l2).dropWhile p = b :: l2 := by
  induction l1 with
  | nil => simp [List.dropWhile_cons, h2]
  | cons a l ih =>
      simp only [List.cons_append, List.dropWhile_cons, h1 a (by simp), if_true]
      exact ih (fun x hx => h1 x (by simp [hx]))

theorem length_eq_four {α} {l : List α} (h : l.length = 4) :
    ∃ a b c d, l = [a, b, c, d] := by
  match l, h with
  | [a, b, c, d], _ => exact ⟨a, b, c, d, rfl⟩

theorem filterMap_if_eq_map_filter {α β} (p : α → Bool) (g : α → β) :
    ∀ l : List α,
      l.filterMap (fun a => if p a then some (g a) else none) = (l.filter p).map g := by
  intro l
  induction l with
  | nil => rfl
  | cons a l ih =>
      by_cases h : p a = true
      · simp [List.filterMap_cons, List.filter_cons, h, ih]
      · simp only [Bool.not_eq_true] at h
        simp [List.filterMap_cons, List.filter_cons, h, ih]

theorem map_getD_range {α} (l : List α) (d : α) :
    (List.range l.length).map (fun i => l.getD i d) = l := by
  induction l with
  | nil => rfl
  | cons a l ih =>
      rw [List.length_cons, List.range_succ_eq_map, List.map_cons, List.map_map]
      simp only [List.getD_cons_zero, Function.comp_def, List.getD_cons_succ]
      rw [ih]

/-! ### Basic facts about the room model -/

/-- The stored cell at valid indices is the corresponding `List.get`. -/
theorem Room.cellAt_eq_get (room : Room) {r c : Nat} (hr : r < room.grid.length)
    (hc : c < (room.grid.get ⟨r, hr⟩).length) :
    room.cellAt r c = (room.grid.get ⟨r, hr⟩).get ⟨c, hc⟩ := by
  unfold Room.cellAt
  rw [List.getD_eq_getElem room.grid [] hr, List.getD_eq_getElem _ Cell.WALL]
  · simp
  · simpa using hc

/-- Every position produced by `get_empty_cells` passes the constructor wall
check. -/
theorem get_empty_cells_not_wall {room : Room} {p : Int × Int}
    (h : p ∈ room.get_empty_cells) : room.is_wall p.1 p.2 = false := by
  unfold Room.get_empty_cells at h
  rw [List.mem_flatMap] at h
  obtain ⟨r, hr, hmem⟩ := h
  rw [List.mem_filterMap] at hmem
  obtain ⟨c, hc, hcell⟩ := hmem
  rw [List.mem_range] at hr
  rw [List.mem_range] at hc
  by_cases he : room.cellAt r c == Cell.EMPTY
  · rw [if_pos he] at hcell
    obtain rfl := Option.some_injective _ hcell
    show room.is_wall (r : Int) (c : Int) = false
    unfold Room.is_wall
    rw [if_neg]
    · simp only [Int.toNat_natCast]
      rw [beq_iff_eq] at he
      simp [he]
    · push_neg
      refine ⟨by positivity, ?_, by positivity, ?_⟩ <;> [exact_mod_cast hr; exact_mod_cast hc]
  · rw [if_neg he] at hcell
    exact absurd hcell (by simp)

/-! ### Concrete fixtures for witnesses and counterexamples -/

/-- A 3×3 room with a single interior empty cell (what
`Room.empty_room(3, 3)` builds). -/
def room3 : Room :=
  ⟨[[Cell.WALL, Cell.WALL, Cell.WALL],
    [Cell.WALL, Cell.EMPTY, Cell.WALL],
    [Cell.WALL, Cell.WALL, Cell.WALL]]⟩

/-- A bot that has already halted (used to witness the halted no-op). -/
def haltedBot : Picobot :=
  { room := room3
    rules := []
    position := (1, 1)
    state := 0
    visited := {(1, 1)}
    history := []
    halted := true
    halt_reason := "stopped" }

/-! ### Claim C10 -/

/-- Claim C10: calling `step()` on an already-halted agent returns `False`
and is a no-op — the returned simulator is the input simulator itself, so
position, state, visited, halt reason and the history log are unchanged and
no trace record is appended. -/
theorem C10_step_after_halt (bot : Picobot) (h : bot.halted = true) :
    bot.step = (bot, false) := by
  unfold Picobot.step
  rw [h]
  simp

/-- Witness for C10 at a concrete halted agent. -/
theorem C10_step_after_halt_witness : haltedBot.step = (haltedBot, false) :=
  C10_step_after_halt haltedBot rfl

/-! ### Claim C8 -/

/-- Claim C8: for every constructed (validated) room and every integer
coordinate pair, `is_wall` is true iff the coordinates are out of bounds
(row < 0, row ≥ height, col < 0, or col ≥ width) or the stored cell at the
coordinates is `WALL`.  The function is total, so out-of-bounds coordinates
never raise an error — they land in the first disjunct. -/
theorem C8_is_wall_iff (room : Room) (hv : room.Valid) (row col : Int) :
    room.is_wall row col = true ↔
      (row < 0 ∨ (room.height : Int) ≤ row ∨ col < 0 ∨ (room.width : Int) ≤ col) ∨
      ∃ (hr : row.toNat < room.grid.length)
        (hc : col.toNat < (room.grid.get ⟨row.toNat, hr⟩).length),
        (room.grid.get ⟨row.toNat, hr⟩).get ⟨col.toNat, hc⟩ = Cell.WALL := by
  obtain ⟨hne, hw, hrows⟩ := hv
  unfold Room.is_wall
  by_cases hb : row < 0 ∨ (room.height : Int) ≤ row ∨ col < 0 ∨ (room.width : Int) ≤ col
  · simp [hb]
  · rw [if_neg hb]
    push_neg at hb
    obtain ⟨h1, h2, h3, h4⟩ := hb
    have hrn : row.toNat < room.grid.length := by
      have : row < (room.grid.length : Int) := h2
      omega
    have hcw : col.toNat < room.width := by omega
    have hcn : col.toNat < (room.grid.get ⟨row.toNat, hrn⟩).length := by
      rw [hrows _ (List.get_mem room.grid _ hrn)]
      exact hcw
    rw [room.cellAt_eq_get hrn hcn]
    constructor
    · intro hwall
      exact Or.inr ⟨hrn, hcn, by simpa using hwall⟩
    · rintro (habs | ⟨hr, hc, hcell⟩)
      · omega
      · rw [beq_iff_eq]
        simp only [List.get_eq_getElem] at hcell ⊢
        exact hcell

/-- Witness for C8: `room3` is valid and an out-of-bounds lookup is a wall. -/
theorem C8_is_wall_iff_witness : room3.is_wall (-1) 100 = true :=
  (C8_is_wall_iff room3 (by constructor <;> simp [room3, Room.width]) (-1) 100).mpr
    (Or.inl (by norm_num))

/-! ### Claim C1 -/

/-- Unfolding `find_matching_rule` over a cons cell. -/
theorem find_matching_rule_cons (a : Rule) (rules : List Rule) (state : Nat)
    (surr : List Char) :
    find_matching_rule (a :: rules) state surr =
      if a.matches state surr then some a else find_matching_rule rules state surr := by
  unfold find_matching_rule
  cases ha : a.matches state surr <;> simp [List.find?_cons, ha]

/-- Pointwise reading of the wildcard match over zipped lists of equal
length. -/
theorem zip_all_star_iff : ∀ (p s : List Char), p.length = s.length →
    (((p.zip s).all fun pc => pc.1 == '*' || pc.1 == pc.2) = true ↔
      ∀ i, i < p.length → p.getD i '*' = '*' ∨ p.getD i '*' = s.getD i '*') := by
  intro p
  induction p with
  | nil => intro s h; simp
  | cons a p ih =>
      intro s h
      cases s with
      | nil => simp at h
      | cons b s =>
          rw [List.zip_cons_cons]
          simp only [List.all_cons, Bool.and_eq_true]
          rw [ih s (by simpa using h)]
          constructor
          · rintro ⟨h0, hrest⟩
            intro i hi
            cases i with
            | zero => simpa using h0
            | succ j =>
                simp only [List.getD_cons_succ]
                exact hrest j (by simpa using hi)
          · intro hall
            refine ⟨by simpa using hall 0 (by simp), ?_⟩
            intro i hi
            have := hall (i + 1) (by simpa using hi)
            simpa using this

/-- Claim C1: `find_matching_rule` returns the first rule in list order that
matches (`None` iff no rule matches); a rule matches iff its state equals the
given state and each of its 4 pattern slots is `*` or equals the
corresponding surroundings character; if an earlier rule matches, no later
rule is ever returned. -/
theorem C1_find_matching_rule_first (rules : List Rule) (state : Nat) (surr : List Char) :
    (find_matching_rule rules state surr = none ↔
      ∀ r ∈ rules, r.matches state surr = false) ∧
    (∀ r, find_matching_rule rules state surr = some r →
      ∃ l1 l2, rules = l1 ++ r :: l2 ∧ r.matches state surr = true ∧
        ∀ r2 ∈ l1, r2.matches state surr = false) ∧
    (∀ l1 R1 l2, rules = l1 ++ R1 :: l2 → R1.matches state surr = true →
      ∃ r, find_matching_rule rules state surr = some r ∧ r ∈ l1 ++ [R1]) ∧
    (∀ rule : Rule, rule.surroundings_pattern.length = 4 → surr.length = 4 →
      (rule.matches state surr = true ↔ state = rule.state ∧
        ∀ i, i < 4 → rule.surroundings_pattern.getD i '*' = '*' ∨
          rule.surroundings_pattern.getD i '*' = surr.getD i '*')) := by
  refine ⟨?_, ?_, ?_, ?_⟩
  · unfold find_matching_rule
    rw [List.find?_eq_none]
    simp
  · intro r h
    induction rules with
    | nil => simp [find_matching_rule] at h
    | cons a l ih =>
        rw [find_matching_rule_cons] at h
        by_cases ha : a.matches state surr = true
        · rw [if_pos ha] at h
          obtain rfl := Option.some_injective _ h
          exact ⟨[], l, rfl, ha, by simp⟩
        · rw [if_neg (by simpa using ha)] at h
          obtain ⟨l1, l2, rfl, hm, hnone⟩ := ih h
          refine ⟨a :: l1, l2, rfl, hm, ?_⟩
          intro r2 hr2
          rcases List.mem_cons.mp hr2 with rfl | hr2
          · simpa using ha
          · exact hnone r2 hr2
  · intro l1 R1 l2 hsplit hm
    subst hsplit
    induction l1 with
    | nil =>
        refine ⟨R1, ?_, by simp⟩
        rw [List.nil_append, find_matching_rule_cons, if_pos hm]
    | cons a l ih =>
        by_cases ha : a.matches state surr = true
        · refine ⟨a, ?_, by simp⟩
          rw [List.cons_append, find_matching_rule_cons, if_pos ha]
        · obtain ⟨r, hfind, hr⟩ := ih
          refine ⟨r, ?_, by simpa using Or.inr (by simpa using hr)⟩
          rw [List.cons_append, find_matching_rule_cons, if_neg (by simpa using ha)]
          exact hfind
  · intro rule hp hs
    unfold Rule.matches
    by_cases hst : state = rule.state
    · rw [if_neg (by simp [hst])]
      rw [zip_all_star_iff _ _ (by omega)]
      rw [hp]
      simp [hst]
    · rw [if_pos (by simpa using hst)]
      simp [hst]

/-- Witness for C1: with an overlapping wildcard rule set, the earlier rule
is the one found. -/
theorem C1_find_matching_rule_first_witness :
    ∃ r, find_matching_rule
        [⟨0, ['x', '*', '*', '*'], 'N', 0, 0⟩, ⟨0, ['*', '*', '*', '*'], 'X', 1, 0⟩]
        0 ['x', 'x', 'x', 'x'] = some r ∧
      r ∈ [] ++ [(⟨0, ['x', '*', '*', '*'], 'N', 0, 0⟩ : Rule)] :=
  (C1_find_matching_rule_first
      [⟨0, ['x', '*', '*', '*'], 'N', 0, 0⟩, ⟨0, ['*', '*', '*', '*'], 'X', 1, 0⟩]
      0 ['x', 'x', 'x', 'x']).2.2.1
    [] ⟨0, ['x', '*', '*', '*'], 'N', 0, 0⟩ [⟨0, ['*', '*', '*', '*'], 'X', 1, 0⟩]
    rfl (by decide)

/-! ### Claim C4 (corrected)

The claim (and §4.4 of the spec) states the halt reason has the form
`"no rule matches state S with pattern P"`.  The code formats
`f"No rule matches state {S} with surroundings {P}"` — capitalised and with
the word "surroundings", not "pattern".  Everything else the claim says
holds, proved in the amended theorem below. -/

/-- The bot `test` code would build for `room3` with no rules: one empty
cell, no matching rule for any observation. -/
def botNoRule : Picobot := Picobot.mkAt room3 [] (1, 1)

/-- Counterexample for C4 as stated: at a concrete agent with no matching
rule, the halt reason produced by `step` is not the claimed
`"no rule matches state 0 with pattern NEWS"` template instantiation. -/
theorem C4_counterexample :
    (botNoRule.step).1.halt_reason ≠
      String.mk ("no rule matches state ".toList ++ (Nat.repr 0).toList ++
        " with pattern ".toList ++ ['N', 'E', 'W', 'S']) ∧
    (botNoRule.step).1.halt_reason =
      String.mk ("No rule matches state ".toList ++ (Nat.repr 0).toList ++
        " with surroundings ".toList ++ ['N', 'E', 'W', 'S']) := by
  constructor <;> decide

/-- Claim C4 (amended): for every non-halted agent with no matching rule for
the current (state, surroundings), `step` halts the agent with reason
`"No rule matches state S with surroundings P"` (the code's exact wording:
capitalised, and "surroundings" instead of the claimed "pattern"), appends a
history record whose `new_position`/`new_state` equal the pre-step values,
leaves position, state and visited unchanged, and returns the halted
outcome (`False`) rather than raising an exception. -/
theorem C4_no_rule_halt (bot : Picobot) (hh : bot.halted = false)
    (hfind : find_matching_rule bot.rules bot.state bot.get_surroundings = none) :
    bot.step =
      ({ bot with
          halted := true
          halt_reason := noRuleMsg bot.state bot.get_surroundings
          history := bot.history ++
            [{ step_number := bot.history.length
               position := bot.position
               state := bot.state
               surroundings := bot.get_surroundings
               rule_applied := none
               new_position := bot.position
               new_state := bot.state }] }, false) := by
  unfold Picobot.step
  rw [hh]
  simp only [Bool.false_eq_true, if_false]
  rw [hfind]

/-- Witness for the amended C4 at a concrete agent. -/
theorem C4_no_rule_halt_witness :
    botNoRule.step =
      ({ botNoRule with
          halted := true
          halt_reason := noRuleMsg botNoRule.state botNoRule.get_surroundings
          history := botNoRule.history ++
            [{ step_number := botNoRule.history.length
               position := botNoRule.position
               state := botNoRule.state
               surroundings := botNoRule.get_surroundings
               rule_applied := none
               new_position := botNoRule.position
               new_state := botNoRule.state }] }, false) :=
  C4_no_rule_halt botNoRule rfl rfl

/-! ### Claim C3 -/

/-- The invariant "every visited position is a non-wall cell". -/
def VisitedOk (bot : Picobot) : Prop :=
  ∀ p ∈ bot.visited, bot.room.is_wall p.1 p.2 = false

/-- `step` never changes the room. -/
theorem step_room (bot : Picobot) : bot.step.1.room = bot.room := by
  unfold Picobot.step
  by_cases hh : bot.halted = true
  · rw [hh]
    simp
  · rw [Bool.not_eq_true] at hh
    rw [hh]
    simp only [Bool.false_eq_true, if_false]
    cases find_matching_rule bot.rules bot.state bot.get_surroundings with
    | none => rfl
    | some rule =>
        dsimp only
        split <;> rfl

/-- One `step` preserves the visited-cells invariant: the only position ever
added is the move target, which has just passed the wall check. -/
theorem visitedOk_step {bot : Picobot} (h : VisitedOk bot) : VisitedOk bot.step.1 := by
  unfold Picobot.step
  by_cases hh : bot.halted = true
  · rw [hh]
    simpa using h
  · rw [Bool.not_eq_true] at hh
    rw [hh]
    simp only [Bool.false_eq_true, if_false]
    cases find_matching_rule bot.rules bot.state bot.get_surroundings with
    | none => exact h
    | some rule =>
        dsimp only
        split
        · exact h
        · rename_i hw
          intro p hp
          rcases Finset.mem_insert.mp hp with rfl | hp
          · simpa using Bool.not_eq_true _ ▸ hw
          · exact h p hp

/-- Successful construction yields a `mkAt` bot at a non-wall position. -/
theorem init_ok_shape {room : Room} {rules : List Rule} {start : Option (Int × Int)}
    {bot : Picobot} (h : Picobot.init room rules start = .ok bot) :
    ∃ pos, bot = Picobot.mkAt room rules pos ∧ room.is_wall pos.1 pos.2 = false := by
  cases start with
  | none =>
      simp only [Picobot.init] at h
      cases hc : room.get_empty_cells with
      | nil => rw [hc] at h; exact absurd h (by simp)
      | cons c tail =>
          rw [hc] at h
          obtain rfl := (Except.ok.inj h).symm
          exact ⟨c, rfl, get_empty_cells_not_wall (hc ▸ List.mem_cons_self c tail)⟩
  | some pos =>
      simp only [Picobot.init] at h
      by_cases hw : room.is_wall pos.1 pos.2 = true
      · rw [if_pos hw] at h
        exact absurd h (by simp)
      · rw [if_neg hw] at h
        obtain rfl := (Except.ok.inj h).symm
        exact ⟨pos, rfl, by simpa using hw⟩

/-- A freshly constructed bot satisfies the visited-cells invariant. -/
theorem visitedOk_init {room : Room} {rules : List Rule} {start : Option (Int × Int)}
    {bot : Picobot} (h : Picobot.init room rules start = .ok bot) : VisitedOk bot := by
  obtain ⟨pos, rfl, hw⟩ := init_ok_shape h
  intro p hp
  rw [Finset.mem_singleton.mp hp]
  exact hw

/-- The run loop preserves the visited-cells invariant. -/
theorem visitedOk_runAux :
    ∀ (fuel : Nat) (bot : Picobot) (total : Nat) (stop : Bool) (taken : Nat),
      VisitedOk bot → VisitedOk (Picobot.runAux bot total stop taken fuel).1 := by
  intro fuel
  induction fuel with
  | zero => intro bot total stop taken h; exact h
  | succ n ih =>
      intro bot total stop taken h
      unfold Picobot.runAux
      split
      · exact h
      · dsimp only
        split
        · exact ih _ _ _ _ (visitedOk_step h)
        · exact visitedOk_step h

/-- Claim C3: a matched rule whose direction leads into a wall halts the
agent (with the illegal-move reason, a trace record carrying the unchanged
position/state, and a `False` return, without moving); moreover the
visited set never contains a wall coordinate: it holds at construction, is
preserved by every step, and hence by every run. -/
theorem C3_illegal_move_halts_and_visited_no_wall :
    (∀ (bot : Picobot) (rule : Rule),
        bot.halted = false →
        find_matching_rule bot.rules bot.state bot.get_surroundings = some rule →
        rule.direction ∈ dirKeys →
        bot.room.is_wall (bot.position.1 + (MOVE_VECTORS rule.direction).1)
          (bot.position.2 + (MOVE_VECTORS rule.direction).2) = true →
        bot.step =
          ({ bot with
              halted := true
              halt_reason := illegalMoveMsg rule
                (bot.position.1 + (MOVE_VECTORS rule.direction).1)
                (bot.position.2 + (MOVE_VECTORS rule.direction).2)
              history := bot.history ++
                [{ step_number := bot.history.length
                   position := bot.position
                   state := bot.state
                   surroundings := bot.get_surroundings
                   rule_applied := some rule
                   new_position := bot.position
                   new_state := bot.state }] }, false)) ∧
    (∀ bot : Picobot, VisitedOk bot → VisitedOk bot.step.1) ∧
    (∀ (room : Room) (rules : List Rule) (start : Option (Int × Int)) (bot : Picobot),
        Picobot.init room rules start = .ok bot → VisitedOk bot) ∧
    (∀ (bot : Picobot) (max_steps : Nat) (stop : Bool),
        VisitedOk bot → VisitedOk (bot.run max_steps stop).1) := by
  refine ⟨?_, fun bot h => visitedOk_step h,
          fun room rules start bot h => visitedOk_init h,
          fun bot max_steps stop h => visitedOk_runAux max_steps bot _ stop 0 h⟩
  intro bot rule hh hfind hdir hw
  unfold Picobot.step
  rw [hh]
  simp only [Bool.false_eq_true, if_false]
  rw [hfind]
  dsimp only
  rw [if_pos hw]

/-- A bot whose only rule walks it straight into the north wall. -/
def botWallRule : Picobot :=
  Picobot.mkAt room3 [⟨0, ['*', '*', '*', '*'], 'N', 0, 0⟩] (1, 1)

/-- Witness for C3: the wildcard rule at the single-cell room tries to move
north into the wall and halts. -/
theorem C3_illegal_move_halts_and_visited_no_wall_witness :
    botWallRule.step =
      ({ botWallRule with
          halted := true
          halt_reason := illegalMoveMsg ⟨0, ['*', '*', '*', '*'], 'N', 0, 0⟩
            (botWallRule.position.1 + (MOVE_VECTORS 'N').1)
            (botWallRule.position.2 + (MOVE_VECTORS 'N').2)
          history := botWallRule.history ++
            [{ step_number := botWallRule.history.length
               position := botWallRule.position
               state := botWallRule.state
               surroundings := botWallRule.get_surroundings
               rule_applied := some ⟨0, ['*', '*', '*', '*'], 'N', 0, 0⟩
               new_position := botWallRule.position
               new_state := botWallRule.state }] }, false) :=
  C3_illegal_move_halts_and_visited_no_wall.1 botWallRule
    ⟨0, ['*', '*', '*', '*'], 'N', 0, 0⟩ rfl (by decide) (by decide) (by decide)

/-! ### Claim C2 -/

/-- The loop makes at most `fuel` step calls beyond the accumulator. -/
theorem runAux_taken_le :
    ∀ (fuel : Nat) (bot : Picobot) (total : Nat) (stop : Bool) (taken : Nat),
      (Picobot.runAux bot total stop taken fuel).2 ≤ taken + fuel := by
  intro fuel
  induction fuel with
  | zero => intro bot total stop taken; simp [Picobot.runAux]
  | succ n ih =>
      intro bot total stop taken
      unfold Picobot.runAux
      split
      · simp
      · dsimp only
        split
        · have := ih bot.step.1 total stop (taken + 1)
          omega
        · omega

/-- With the stop flag set and coverage already reached, the loop exits
before stepping, leaving the bot and the step counter untouched. -/
theorem runAux_early {bot : Picobot} {total : Nat} {stop : Bool} {taken fuel : Nat}
    (hstop : stop = true) (hcov : total ≤ bot.visited.card) :
    Picobot.runAux bot total stop taken fuel = (bot, taken) := by
  cases fuel with
  | zero => rfl
  | succ n =>
      unfold Picobot.runAux
      rw [if_pos]
      simp [hstop, hcov]

/-- Claim C2: `run` reports success iff the final visited count reaches the
room's empty-cell count (purely by coverage, independent of halting); it
executes at most `max_steps` steps; and with `stop_on_full_coverage` set it
stops before stepping as soon as coverage is reached.  (The `WFdir`
hypothesis restricts to rule lists whose directions are `MOVE_VECTORS`
keys, where the embedding of the Python dict lookup is exact.) -/
theorem C2_run_success_iff_coverage (bot : Picobot) (max_steps : Nat) (stop : Bool)
    (_hwf : WFdir bot.rules) :
    ((bot.run max_steps stop).2.success = true ↔
      bot.room.count_empty_cells ≤ (bot.run max_steps stop).1.visited.card) ∧
    (bot.run max_steps stop).2.steps ≤ max_steps ∧
    (stop = true → bot.room.count_empty_cells ≤ bot.visited.card →
      (bot.run max_steps stop).1 = bot ∧ (bot.run max_steps stop).2.steps = 0) := by
  refine ⟨?_, ?_, ?_⟩
  · unfold Picobot.run
    dsimp only
    exact decide_eq_true_iff
  · unfold Picobot.run
    dsimp only
    simpa using runAux_taken_le max_steps bot bot.room.count_empty_cells stop 0
  · intro hstop hcov
    unfold Picobot.run
    dsimp only
    rw [runAux_early hstop hcov]
    exact ⟨rfl, rfl⟩

/-- Witness for C2 at a concrete bot (single-cell room, empty rule list):
the run is immediately successful with zero steps. -/
theorem C2_run_success_iff_coverage_witness :
    ((botNoRule.run 5 true).2.success = true ↔
      botNoRule.room.count_empty_cells ≤ (botNoRule.run 5 true).1.visited.card) ∧
    (botNoRule.run 5 true).2.steps ≤ 5 ∧
    (true = true → botNoRule.room.count_empty_cells ≤ botNoRule.visited.card →
      (botNoRule.run 5 true).1 = botNoRule ∧ (botNoRule.run 5 true).2.steps = 0) :=
  C2_run_success_iff_coverage botNoRule 5 true (fun r hr => absurd hr (by simp [botNoRule, Picobot.mkAt]))

/-! ### Claim C6 -/

/-- A room with at least one non-wall coordinate has at least one empty
cell (so the division in `run` is never by zero for a constructed bot). -/
theorem is_wall_false_count_pos {room : Room} {r c : Int}
    (h : room.is_wall r c = false) : 1 ≤ room.count_empty_cells := by
  unfold Room.is_wall at h
  by_cases hb : r < 0 ∨ (room.height : Int) ≤ r ∨ c < 0 ∨ (room.width : Int) ≤ c
  · rw [if_pos hb] at h
    exact absurd h (by simp)
  · rw [if_neg hb] at h
    push_neg at hb
    obtain ⟨h1, h2, h3, h4⟩ := hb
    have hcell : room.cellAt r.toNat c.toNat = Cell.EMPTY := by
      cases hc : room.cellAt r.toNat c.toNat
      · rfl
      · rw [hc] at h
        exact absurd h (by simp)
    have hrn : r.toNat < room.grid.length := by
      unfold Room.height at h2
      omega
    have hrow : room.grid.getD r.toNat [] ∈ room.grid := by
      rw [List.getD_eq_getElem _ _ hrn]
      exact List.getElem_mem _
    have hcn : Cell.EMPTY ∈ room.grid.getD r.toNat [] := by
      unfold Room.cellAt at hcell
      by_cases hlen : c.toNat < (room.grid.getD r.toNat []).length
      · rw [List.getD_eq_getElem _ _ hlen] at hcell
        exact hcell ▸ List.getElem_mem _
      · rw [List.getD_eq_default _ _ (by omega)] at hcell
        exact absurd hcell (by simp)
    have hpos : 0 < (room.grid.getD r.toNat []).countP (fun x => x == Cell.EMPTY) := by
      rw [List.countP_pos_iff]
      exact ⟨Cell.EMPTY, hcn, by simp⟩
    unfold Room.count_empty_cells
    have hin := List.mem_map_of_mem (fun row => row.countP (fun x => x == Cell.EMPTY)) hrow
    have hsum := List.single_le_sum (fun (x : Nat) _ => Nat.zero_le x) _ hin
    exact le_trans hpos hsum

/-- The run loop never changes the room. -/
theorem runAux_room :
    ∀ (fuel : Nat) (bot : Picobot) (total : Nat) (stop : Bool) (taken : Nat),
      (Picobot.runAux bot total stop taken fuel).1.room = bot.room := by
  intro fuel
  induction fuel with
  | zero => intro bot total stop taken; rfl
  | succ n ih =>
      intro bot total stop taken
      unfold Picobot.runAux
      split
      · rfl
      · dsimp only
        split
        · rw [ih bot.step.1 total stop (taken + 1), step_room]
        · exact step_room bot

/-- Claim C6: for every constructed bot, the room has at least one empty
cell (so the unguarded division in `run` is never division by zero), the
result's `coverage` equals `100 · visited / total`, and it agrees with the
guarded `coverage_percent`, which is defined to be 100 when the room has
zero empty cells instead of raising an error. -/
theorem C6_coverage_is_fraction :
    (∀ (room : Room) (rules : List Rule) (start : Option (Int × Int)) (bot : Picobot),
        Picobot.init room rules start = .ok bot →
        1 ≤ room.count_empty_cells ∧
        ∀ (max_steps : Nat) (stop : Bool),
          (bot.run max_steps stop).2.coverage =
            100 * ((bot.run max_steps stop).2.visited : Rat) /
              ((bot.run max_steps stop).2.total : Rat) ∧
          (bot.run max_steps stop).2.total = room.count_empty_cells ∧
          (bot.run max_steps stop).2.coverage = (bot.run max_steps stop).1.coverage_percent) ∧
    (∀ bot : Picobot,
        (bot.room.count_empty_cells = 0 → bot.coverage_percent = 100) ∧
        (bot.room.count_empty_cells ≠ 0 →
          bot.coverage_percent =
            100 * (bot.visited.card : Rat) / (bot.room.count_empty_cells : Rat))) := by
  constructor
  · intro room rules start bot hinit
    obtain ⟨pos, rfl, hw⟩ := init_ok_shape hinit
    have hcount : 1 ≤ room.count_empty_cells := is_wall_false_count_pos hw
    refine ⟨hcount, ?_⟩
    intro max_steps stop
    have hroom : (Picobot.mkAt room rules pos).room = room := rfl
    refine ⟨rfl, rfl, ?_⟩
    unfold Picobot.run Picobot.coverage_percent
    dsimp only
    rw [runAux_room]
    rw [hroom, if_neg (by omega)]
  · intro bot
    constructor
    · intro h
      unfold Picobot.coverage_percent
      rw [if_pos h]
    · intro h
      unfold Picobot.coverage_percent
      rw [if_neg h]

/-- Witness for C6 at the concretely constructed single-cell bot. -/
theorem C6_coverage_is_fraction_witness :
    1 ≤ room3.count_empty_cells ∧
    ∀ (max_steps : Nat) (stop : Bool),
      (botNoRule.run max_steps stop).2.coverage =
        100 * ((botNoRule.run max_steps stop).2.visited : Rat) /
          ((botNoRule.run max_steps stop).2.total : Rat) ∧
      (botNoRule.run max_steps stop).2.total = room3.count_empty_cells ∧
      (botNoRule.run max_steps stop).2.coverage =
        (botNoRule.run max_steps stop).1.coverage_percent :=
  C6_coverage_is_fraction.1 room3 [] none botNoRule rfl

/-! ### Claim C7 -/

/-- Constructing a bot at a position coming from `get_empty_cells` passes the
constructor validation and yields exactly `mkAt` (this justifies
`test_rules_all_positions` using `mkAt` for its per-cell fresh bots). -/
theorem init_of_empty_cell {room : Room} {rules : List Rule} {pos : Int × Int}
    (h : pos ∈ room.get_empty_cells) :
    Picobot.init room rules (some pos) = .ok (Picobot.mkAt room rules pos) := by
  unfold Picobot.init
  simp [get_empty_cells_not_wall h]

/-- For a validated room, the empty-cell enumeration has exactly
`count_empty_cells` entries. -/
theorem get_empty_cells_length {room : Room} (hv : room.Valid) :
    room.get_empty_cells.length = room.count_empty_cells := by
  obtain ⟨hne, hw0, hrows⟩ := hv
  unfold Room.get_empty_cells Room.count_empty_cells
  rw [List.flatMap_def, List.length_flatten, List.map_map]
  have hmap : (List.range room.height).map
      (List.length ∘ fun r => (List.range room.width).filterMap
        (fun c => if room.cellAt r c == Cell.EMPTY then some ((r : Int), (c : Int)) else none))
      = (List.range room.height).map
          (fun r => (room.grid.getD r []).countP (fun x => x == Cell.EMPTY)) := by
    apply List.map_congr_left
    intro r hr
    rw [List.mem_range] at hr
    have hrn : r < room.grid.length := hr
    simp only [Function.comp_apply]
    rw [filterMap_if_eq_map_filter (fun c => room.cellAt r c == Cell.EMPTY)
        (fun c => ((r : Int), (c : Int)))]
    rw [List.length_map, ← List.countP_eq_length_filter]
    have hlen : (room.grid.getD r []).length = room.width := by
      apply hrows
      rw [List.getD_eq_getElem _ _ hrn]
      exact List.getElem_mem _
    rw [← hlen]
    conv_rhs => rw [← map_getD_range (room.grid.getD r []) Cell.WALL]
    rw [List.countP_map]
    rfl
  rw [hmap]
  have hgrid : (List.range room.height).map (fun r => room.grid.getD r []) = room.grid := by
    unfold Room.height
    exact map_getD_range room.grid []
  conv_rhs => rw [← hgrid]
  rw [List.map_map]
  rfl

/-- `get_empty_cells` enumerates in row-major order: the produced list is
strictly increasing in the lexicographic (row, col) order. -/
theorem get_empty_cells_sorted (room : Room) :
    List.Pairwise (fun a b : Int × Int => a.1 < b.1 ∨ (a.1 = b.1 ∧ a.2 < b.2))
      room.get_empty_cells := by
  unfold Room.get_empty_cells
  rw [List.pairwise_flatMap]
  constructor
  · intro r hr
    rw [List.pairwise_filterMap]
    apply List.Pairwise.imp ?_ (List.pairwise_lt_range room.width)
    intro c c' hlt b hb b' hb'
    by_cases hP : room.cellAt r c == Cell.EMPTY
    · by_cases hP' : room.cellAt r c' == Cell.EMPTY
      · rw [if_pos hP] at hb
        rw [if_pos hP'] at hb'
        obtain rfl := (Option.mem_some_iff.mp hb).symm
        obtain rfl := (Option.mem_some_iff.mp hb').symm
        refine Or.inr ⟨rfl, ?_⟩
        show (c : Int) < (c' : Int)
        exact_mod_cast hlt
      · rw [if_neg hP'] at hb'
        exact absurd hb' (by simp)
    · rw [if_neg hP] at hb
      exact absurd hb (by simp)
  · apply List.Pairwise.imp ?_ (List.pairwise_lt_range room.height)
    intro r r' hlt x hx y hy
    rw [List.mem_filterMap] at hx hy
    obtain ⟨c, hc, hcx⟩ := hx
    obtain ⟨c', hc', hcy⟩ := hy
    by_cases hP : room.cellAt r c == Cell.EMPTY
    · by_cases hP' : room.cellAt r' c' == Cell.EMPTY
      · rw [if_pos hP] at hcx
        rw [if_pos hP'] at hcy
        obtain rfl := (Option.some_injective _ hcx).symm
        obtain rfl := (Option.some_injective _ hcy).symm
        refine Or.inl ?_
        show (r : Int) < (r' : Int)
        exact_mod_cast hlt
      · rw [if_neg hP'] at hcy
        exact absurd hcy (by simp)
    · rw [if_neg hP] at hcx
      exact absurd hcx (by simp)

/-- The verifier's overall success is exactly "every per-cell run
succeeded". -/
theorem test_success_iff (room : Room) (rules : List Rule) (max_steps : Nat) :
    (test_rules_all_positions room rules max_steps).success = true ↔
      ∀ pos ∈ room.get_empty_cells,
        ((Picobot.mkAt room rules pos).run max_steps true).2.success = true := by
  unfold test_rules_all_positions
  dsimp only
  rw [List.isEmpty_iff, List.filter_eq_nil_iff]
  constructor
  · intro h pos hpos
    have := h (pos, ((Picobot.mkAt room rules pos).run max_steps true).2)
      (List.mem_map_of_mem _ hpos)
    simpa using this
  · intro h pr hpr
    rw [List.mem_map] at hpr
    obtain ⟨pos, hpos, rfl⟩ := hpr
    simpa using h pos hpos

/-- On a room with exactly one empty cell the per-cell run is immediately
successful, so the verifier reports 1 tested / 1 passed / success. -/
theorem test_single_cell (room : Room) (rules : List Rule) (max_steps : Nat)
    (hv : room.Valid) (hc : room.count_empty_cells = 1) :
    (test_rules_all_positions room rules max_steps).success = true ∧
    (test_rules_all_positions room rules max_steps).positions_tested = 1 ∧
    (test_rules_all_positions room rules max_steps).positions_passed = 1 := by
  have hlen : room.get_empty_cells.length = 1 := by
    rw [get_empty_cells_length hv, hc]
  obtain ⟨c, hcells⟩ := List.length_eq_one.mp hlen
  have hcov : (Picobot.mkAt room rules c).room.count_empty_cells ≤
      (Picobot.mkAt room rules c).visited.card := by
    show room.count_empty_cells ≤ ({c} : Finset (Int × Int)).card
    simp [hc]
  have hrun : ((Picobot.mkAt room rules c).run max_steps true).2.success = true := by
    unfold Picobot.run
    dsimp only
    rw [runAux_early rfl hcov]
    show decide (room.count_empty_cells ≤ ({c} : Finset (Int × Int)).card) = true
    simp [hc]
  refine ⟨?_, ?_, ?_⟩
  · rw [test_success_iff]
    intro pos hpos
    rw [hcells] at hpos
    obtain rfl : pos = c := by simpa using hpos
    exact hrun
  · unfold test_rules_all_positions
    dsimp only
    rw [hcells]
    rfl
  · unfold test_rules_all_positions
    dsimp only
    rw [hcells]
    simp [hrun]

/-- Claim C7: the verifier tests a fresh state-0 agent from each empty cell
(enumerated in row-major order), succeeds overall iff every per-cell run
succeeds, and on a validated room with exactly one empty cell reports
success with 1 tested and 1 passed for any rule set. -/
theorem C7_verify_all_positions (room : Room) (rules : List Rule) (max_steps : Nat) :
    (test_rules_all_positions room rules max_steps).positions_tested =
      room.get_empty_cells.length ∧
    (∀ pos : Int × Int, (Picobot.mkAt room rules pos).state = 0 ∧
      (Picobot.mkAt room rules pos).visited = {pos}) ∧
    List.Pairwise (fun a b : Int × Int => a.1 < b.1 ∨ (a.1 = b.1 ∧ a.2 < b.2))
      room.get_empty_cells ∧
    ((test_rules_all_positions room rules max_steps).success = true ↔
      ∀ pos ∈ room.get_empty_cells,
        ((Picobot.mkAt room rules pos).run max_steps true).2.success = true) ∧
    (room.Valid → room.count_empty_cells = 1 →
      (test_rules_all_positions room rules max_steps).success = true ∧
      (test_rules_all_positions room rules max_steps).positions_tested = 1 ∧
      (test_rules_all_positions room rules max_steps).positions_passed = 1) :=
  ⟨rfl, fun _ => ⟨rfl, rfl⟩, get_empty_cells_sorted room,
    test_success_iff room rules max_steps, test_single_cell room rules max_steps⟩

/-- Witness for C7: the single-cell `room3` with an empty rule set. -/
theorem C7_verify_all_positions_witness :
    (test_rules_all_positions room3 [] 3).success = true ∧
    (test_rules_all_positions room3 [] 3).positions_tested = 1 ∧
    (test_rules_all_positions room3 [] 3).positions_passed = 1 :=
  (C7_verify_all_positions room3 [] 3).2.2.2.2
    (by unfold Room.Valid; exact ⟨by decide, by decide, by decide⟩) (by decide)

/-! ### Parser facts (towards C5 and C9) -/

/-- The normalized pattern alphabet produced by `parse_rules`. -/
def sixList : List Char := ['N', 'E', 'W', 'S', 'x', '*']

/-- The invariant every parsed rule satisfies (and the domain on which a
rendered rule re-parses). -/
def RuleWF (r : Rule) : Prop :=
  r.state ≤ 99 ∧ r.new_state ≤ 99 ∧ r.surroundings_pattern.length = 4 ∧
    (∀ c ∈ r.surroundings_pattern, c ∈ sixList) ∧ r.direction ∈ dirKeys

/-- Decimal rendering of states in range: non-empty, all digits. -/
theorem repr_facts : ∀ n : Fin 100,
    (Nat.repr n.1).toList ≠ [] ∧ ∀ c ∈ (Nat.repr n.1).toList, isDigitC c = true := by
  decide

/-- Parsing the decimal rendering of an in-range state recovers it. -/
theorem digitsToNat_repr : ∀ n : Fin 100, digitsToNat ((Nat.repr n.1).toList) = n.1 := by
  decide

theorem repr_ne_nil {n : Nat} (h : n ≤ 99) : (Nat.repr n).toList ≠ [] :=
  (repr_facts ⟨n, by omega⟩).1

theorem repr_digits {n : Nat} (h : n ≤ 99) :
    ∀ c ∈ (Nat.repr n).toList, isDigitC c = true :=
  (repr_facts ⟨n, by omega⟩).2

theorem digitsToNat_repr_of_le {n : Nat} (h : n ≤ 99) :
    digitsToNat (Nat.repr n).toList = n :=
  digitsToNat_repr ⟨n, by omega⟩

theorem isDigitC_not_space {c : Char} (h : isDigitC c = true) : isPySpace c = false := by
  by_contra hne
  rw [Bool.not_eq_false] at hne
  unfold isPySpace at hne
  simp only [Bool.or_eq_true, beq_iff_eq] at hne
  rcases hne with ((((rfl | rfl) | rfl) | rfl) | rfl) | rfl <;> revert h <;> decide

theorem isDigitC_ne_nl {c : Char} (h : isDigitC c = true) : c ≠ '\n' := by
  rintro rfl; revert h; decide

theorem isDigitC_ne_hash {c : Char} (h : isDigitC c = true) : c ≠ '#' := by
  rintro rfl; revert h; decide

theorem sixList_not_space : ∀ c ∈ sixList, isPySpace c = false := by decide

theorem sixList_classChar : ∀ c ∈ sixList, classChar c = true := by decide

theorem sixList_ne_nl : ∀ c ∈ sixList, c ≠ '\n' := by decide

theorem sixList_ne_hash : ∀ c ∈ sixList, c ≠ '#' := by decide

theorem dirKeys_dirChar : ∀ c ∈ dirKeys, dirChar c = true := by decide

theorem dirKeys_not_space : ∀ c ∈ dirKeys, isPySpace c = false := by decide

theorem dirKeys_ne_nl : ∀ c ∈ dirKeys, c ≠ '\n' := by decide

theorem dirKeys_ne_hash : ∀ c ∈ dirKeys, c ≠ '#' := by decide

theorem dirKeys_toUpper : ∀ c ∈ dirKeys, c.toUpper = c := by decide

theorem dirChar_toUpper_mem {c : Char} (hc : dirChar c = true) : c.toUpper ∈ dirKeys := by
  unfold dirChar at hc
  rw [decide_eq_true_iff] at hc
  simp only [List.mem_cons, List.not_mem_nil, or_false] at hc
  rcases hc with rfl | rfl | rfl | rfl | rfl | rfl | rfl | rfl | rfl | rfl <;> decide

theorem classChar_toUpper_mem {c : Char} (hc : classChar c = true) :
    c.toUpper ∈ (['N', 'E', 'W', 'S', 'X', '*'] : List Char) := by
  unfold classChar at hc
  rw [decide_eq_true_iff] at hc
  simp only [List.mem_cons, List.not_mem_nil, or_false] at hc
  rcases hc with rfl | rfl | rfl | rfl | rfl | rfl | rfl | rfl | rfl | rfl | rfl <;> decide

/-- On upper-cased class characters (index below 4) the normalization step
succeeds and lands in the normalized alphabet. -/
theorem normChar_of_upper {ln i : Nat} {c : Char} (hi : i < 4)
    (hc : c ∈ (['N', 'E', 'W', 'S', 'X', '*'] : List Char)) :
    ∃ c', normChar ln i c = .ok c' ∧ c' ∈ sixList := by
  simp only [List.mem_cons, List.not_mem_nil, or_false] at hc
  rcases hc with rfl | rfl | rfl | rfl | rfl | rfl
  · exact ⟨'N', by simp [normChar], by decide⟩
  · exact ⟨'E', by simp [normChar], by decide⟩
  · exact ⟨'W', by simp [normChar], by decide⟩
  · exact ⟨'S', by simp [normChar], by decide⟩
  · exact ⟨'x', by simp [normChar, hi], by decide⟩
  · exact ⟨'*', by simp [normChar], by decide⟩

/-- Upper-casing a normalized character and normalizing again is the
identity (this is what makes the render/parse round trip stable). -/
theorem normChar_toUpper_six {ln i : Nat} {c : Char} (hi : i < 4) (hc : c ∈ sixList) :
    normChar ln i c.toUpper = .ok c := by
  simp only [sixList, List.mem_cons, List.not_mem_nil, or_false] at hc
  rcases hc with rfl | rfl | rfl | rfl | rfl | rfl
  · rw [show ('N' : Char).toUpper = 'N' from by decide]; simp [normChar]
  · rw [show ('E' : Char).toUpper = 'E' from by decide]; simp [normChar]
  · rw [show ('W' : Char).toUpper = 'W' from by decide]; simp [normChar]
  · rw [show ('S' : Char).toUpper = 'S' from by decide]; simp [normChar]
  · rw [show ('x' : Char).toUpper = 'X' from by decide]; simp [normChar, hi]
  · rw [show ('*' : Char).toUpper = '*' from by decide]; simp [normChar]

/-- The normalization loop is the identity on upper-cased normalized
4-character patterns. -/
theorem normChars_toUpper_six {ln : Nat} :
    ∀ (cs : List Char) (i : Nat), (∀ c ∈ cs, c ∈ sixList) → i + cs.length ≤ 4 →
      normChars ln i (cs.map Char.toUpper) = .ok cs := by
  intro cs
  induction cs with
  | nil => intro i h hlen; rfl
  | cons c cs ih =>
      intro i h hlen
      rw [List.map_cons]
      unfold normChars
      rw [normChar_toUpper_six (by simp at hlen; omega) (h c (by simp))]
      rw [ih (i + 1) (fun x hx => h x (by simp [hx])) (by simp at hlen ⊢; omega)]

/-- The normalization loop succeeds on any upper-cased regex-class pattern
of length at most 4 and produces normalized characters. -/
theorem normChars_of_class {ln : Nat} :
    ∀ (cs : List Char) (i : Nat), (∀ c ∈ cs, classChar c = true) → i + cs.length ≤ 4 →
      ∃ out, normChars ln i (cs.map Char.toUpper) = .ok out ∧
        out.length = cs.length ∧ ∀ c ∈ out, c ∈ sixList := by
  intro cs
  induction cs with
  | nil => intro i h hlen; exact ⟨[], rfl, rfl, by simp⟩
  | cons c cs ih =>
      intro i h hlen
      obtain ⟨c', hc', hc'six⟩ := @normChar_of_upper ln i c.toUpper
        (by simp at hlen; omega) (classChar_toUpper_mem (h c (by simp)))
      obtain ⟨out, hout, hlen2, hsix⟩ :=
        ih (i + 1) (fun x hx => h x (by simp [hx])) (by simp at hlen ⊢; omega)
      refine ⟨c' :: out, ?_, by simp [hlen2], ?_⟩
      · rw [List.map_cons]
        unfold normChars
        rw [hc', hout]
      · intro x hx
        rcases List.mem_cons.mp hx with rfl | hx
        · exact hc'six
        · exact hsix x hx

/-- Every character the normalization step emits is in the normalized
alphabet. -/
theorem normChar_ok_mem {ln i : Nat} {c c' : Char} (h : normChar ln i c = .ok c') :
    c' ∈ sixList := by
  unfold normChar at h
  by_cases h1 : c = 'X' ∧ i < 4
  · rw [if_pos h1] at h
    obtain rfl := Except.ok.inj h
    decide
  · rw [if_neg h1] at h
    by_cases h2 : c = '*'
    · rw [if_pos h2] at h
      obtain rfl := Except.ok.inj h
      decide
    · rw [if_neg h2] at h
      by_cases h3 : c ∈ (['N', 'E', 'W', 'S'] : List Char)
      · rw [if_pos h3] at h
        obtain rfl := Except.ok.inj h
        simp only [List.mem_cons, List.not_mem_nil, or_false] at h3
        rcases h3 with rfl | rfl | rfl | rfl <;> decide
      · rw [if_neg h3] at h
        by_cases h4 : c = 'x'
        · rw [if_pos h4] at h
          obtain rfl := Except.ok.inj h
          decide
        · rw [if_neg h4] at h
          exact absurd h (by simp)

/-- Whatever the normalization loop returns is in the normalized alphabet
and has the input's length. -/
theorem normChars_ok_facts {ln : Nat} :
    ∀ (cs : List Char) (i : Nat) (out : List Char), normChars ln i cs = .ok out →
      out.length = cs.length ∧ ∀ c ∈ out, c ∈ sixList := by
  intro cs
  induction cs with
  | nil =>
      intro i out h
      obtain rfl := (Except.ok.inj h).symm
      exact ⟨rfl, by simp⟩
  | cons c cs ih =>
      intro i out h
      unfold normChars at h
      cases hc : normChar ln i c with
      | error e => rw [hc] at h; exact absurd h (by simp)
      | ok c' =>
          rw [hc] at h
          cases hrest : normChars ln (i + 1) cs with
          | error e => rw [hrest] at h; exact absurd h (by simp)
          | ok out' =>
              rw [hrest] at h
              obtain rfl := (Except.ok.inj h).symm
              obtain ⟨hlen, hsix⟩ := ih (i + 1) out' hrest
              have hc'six : c' ∈ sixList := normChar_ok_mem hc
              refine ⟨by simp [hlen], ?_⟩
              intro x hx
              rcases List.mem_cons.mp hx with rfl | hx
              · exact hc'six
              · exact hsix x hx

/-- Inversion on a successful regex match: the captured groups satisfy their
character classes and the digit groups are non-empty. -/
theorem matchRuleLine_some_facts {l d1 pat : List Char} {dir : Char} {d2 : List Char}
    (h : matchRuleLine l = some (d1, pat, dir, d2)) :
    d1 ≠ [] ∧ (∀ c ∈ d1, isDigitC c = true) ∧ pat.length = 4 ∧
    (∀ c ∈ pat, classChar c = true) ∧ dirChar dir = true ∧
    d2 ≠ [] ∧ (∀ c ∈ d2, isDigitC c = true) := by
  unfold matchRuleLine at h
  dsimp only at h
  split at h
  · exact Option.noConfusion h
  rename_i hne1
  split at h <;> try exact Option.noConfusion h
  rename_i p1 p2 p3 p4 r3 heq1
  split at h <;> try exact Option.noConfusion h
  rename_i hclass
  split at h <;> try exact Option.noConfusion h
  rename_i c1 c2 r5 heq2
  split at h <;> try exact Option.noConfusion h
  rename_i harrow
  split at h <;> try exact Option.noConfusion h
  rename_i d r7 heq3
  split at h <;> try exact Option.noConfusion h
  rename_i hdir
  split at h <;> try exact Option.noConfusion h
  rename_i hne2
  split at h <;> try exact Option.noConfusion h
  rename_i hlast
  simp only [Option.some.injEq, Prod.mk.injEq] at h
  obtain ⟨rfl, rfl, rfl, rfl⟩ := h
  simp only [Bool.or_eq_true, not_or, Bool.not_eq_true, List.isEmpty_eq_false] at hne1 hne2
  simp only [Bool.and_eq_true] at hclass
  refine ⟨hne1.1, fun c hc => List.mem_takeWhile_imp hc, rfl, ?_, hdir,
    hne2.2, fun c hc => List.mem_takeWhile_imp hc⟩
  intro c hc
  simp only [List.mem_cons, List.not_mem_nil, or_false] at hc
  rcases hc with rfl | rfl | rfl | rfl
  · exact hclass.1.1.1
  · exact hclass.1.1.2
  · exact hclass.1.2
  · exact hclass.2

/-- Every rule a successful parse produces is well-formed: range-checked
states, a 4-character pattern over the normalized alphabet, and an
upper-case direction key. -/
theorem parseLinesAux_WF :
    ∀ (lines : List (List Char)) (ln : Nat) (rs : List Rule),
      parseLinesAux lines ln = .ok rs → ∀ r ∈ rs, RuleWF r := by
  intro lines
  induction lines with
  | nil =>
      intro ln rs h r hr
      obtain rfl := (Except.ok.inj h).symm
      simp at hr
  | cons line rest ih =>
      intro ln rs h r hr
      unfold parseLinesAux at h
      dsimp only at h
      split at h
      · exact ih _ _ h r hr
      split at h <;> try exact Except.noConfusion h
      rename_i d1 pat dir d2 heq
      split at h <;> try exact Except.noConfusion h
      rename_i hstate
      split at h <;> try exact Except.noConfusion h
      rename_i hnew
      split at h <;> try exact Except.noConfusion h
      rename_i normalized hnorm
      split at h <;> try exact Except.noConfusion h
      rename_i rules2 hrest
      obtain rfl := (Except.ok.inj h).symm
      rcases List.mem_cons.mp hr with rfl | hr2
      · obtain ⟨hd1ne, hd1dig, hplen, hpclass, hdirc, hd2ne, hd2dig⟩ :=
          matchRuleLine_some_facts heq
        obtain ⟨hlen, hsix⟩ := normChars_ok_facts _ 0 _ hnorm
        refine ⟨?_, ?_, ?_, hsix, dirChar_toUpper_mem hdirc⟩
        · show digitsToNat d1 ≤ 99
          omega
        · show digitsToNat d2 ≤ 99
          omega
        · show normalized.length = 4
          rw [hlen, List.length_map, hplen]
      · exact ih _ _ hrest r hr2

/-- Stripping is the identity when the ends are non-space. -/
theorem pyStrip_eq_self {l : List Char}
    (hhead : ∀ c, l.head? = some c → isPySpace c = false)
    (hlast : ∀ c, l.getLast? = some c → isPySpace c = false) : pyStrip l = l := by
  unfold pyStrip
  cases l with
  | nil => rfl
  | cons a t =>
      rw [List.dropWhile_cons_of_neg (by simp [hhead a rfl])]
      cases hr : (a :: t).reverse with
      | nil => exact absurd hr (by simp)
      | cons b rb =>
          have hb : isPySpace b = false := by
            apply hlast
            rw [List.getLast?_eq_head?_reverse, hr]
            rfl
          rw [List.dropWhile_cons_of_neg (by simp [hb]), ← hr, List.reverse_reverse]

/-- A newline-free line splits to itself. -/
theorem splitNl_no_nl {l : List Char} (h : '\n' ∉ l) : splitNl l = [l] := by
  induction l with
  | nil => rfl
  | cons c t ih =>
      unfold splitNl
      rw [if_neg (by rintro rfl; exact h (by simp))]
      rw [ih (fun hm => h (by simp [hm]))]

/-- Splitting after a newline-free prefix peels it off. -/
theorem splitNl_append {l rest : List Char} (h : '\n' ∉ l) :
    splitNl (l ++ '\n' :: rest) = l :: splitNl rest := by
  induction l with
  | nil =>
      rw [List.nil_append]
      simp [splitNl]
  | cons c t ih =>
      rw [List.cons_append]
      conv_lhs => unfold splitNl
      rw [if_neg (by rintro rfl; exact h (by simp))]
      rw [ih (fun hm => h (by simp [hm]))]

/-- `split('\n')` is a left inverse of `'\n'.join` on non-empty lists of
newline-free lines. -/
theorem splitNl_joinNl :
    ∀ ls : List (List Char), ls ≠ [] → (∀ l ∈ ls, '\n' ∉ l) →
      splitNl (joinNl ls) = ls := by
  intro ls
  induction ls with
  | nil => intro h; exact absurd rfl h
  | cons l tail ih =>
      intro _ hnl
      cases tail with
      | nil => exact splitNl_no_nl (hnl l (by simp))
      | cons l2 t2 =>
          rw [show joinNl (l :: l2 :: t2) = l ++ '\n' :: joinNl (l2 :: t2) from rfl]
          rw [splitNl_append (hnl l (by simp))]
          rw [ih (by simp) (fun x hx => hnl x (by simp [hx]))]

/-- Classification of the characters of a rendered well-formed rule. -/
theorem renderRule_chars {r : Rule} (h : RuleWF r) :
    ∀ c ∈ renderRule r, isDigitC c = true ∨ c ∈ sixList ∨ c ∈ dirKeys ∨
      c ∈ ([' ', '-', '>'] : List Char) := by
  obtain ⟨hs99, hn99, hplen, hpsix, hdirk⟩ := h
  intro c hmem
  unfold renderRule at hmem
  rcases List.mem_append.mp hmem with hfirst | hrest
  · rcases List.mem_append.mp hfirst with hd | hsp
    · exact Or.inl (repr_digits hs99 _ hd)
    rcases List.mem_cons.mp hsp with rfl | hp
    · right; right; right; simp
    · exact Or.inr (Or.inl (hpsix _ hp))
  rcases List.mem_cons.mp hrest with rfl | hrest
  · right; right; right; simp
  rcases List.mem_cons.mp hrest with rfl | hrest
  · right; right; right; simp
  rcases List.mem_cons.mp hrest with rfl | hrest
  · right; right; right; simp
  rcases List.mem_cons.mp hrest with rfl | hrest
  · right; right; right; simp
  rcases List.mem_cons.mp hrest with rfl | hrest
  · exact Or.inr (Or.inr (Or.inl hdirk))
  rcases List.mem_cons.mp hrest with rfl | hd
  · right; right; right; simp
  · exact Or.inl (repr_digits hn99 _ hd)

/-- No newline occurs in a rendered well-formed rule. -/
theorem renderRule_no_nl {r : Rule} (h : RuleWF r) : '\n' ∉ renderRule r := by
  intro hmem
  rcases renderRule_chars h _ hmem with hd | hs | hk | hl
  · exact isDigitC_ne_nl hd rfl
  · exact sixList_ne_nl _ hs rfl
  · exact dirKeys_ne_nl _ hk rfl
  · exact absurd hl (by decide)

/-- No comment marker occurs in a rendered well-formed rule. -/
theorem renderRule_no_hash {r : Rule} (h : RuleWF r) : ∀ c ∈ renderRule r, c ≠ '#' := by
  intro c hmem
  rcases renderRule_chars h _ hmem with hd | hs | hk | hl
  · exact isDigitC_ne_hash hd
  · exact sixList_ne_hash _ hs
  · exact dirKeys_ne_hash _ hk
  · rintro rfl
    exact absurd hl (by decide)

/-- A rendered well-formed rule matches the rule regex, with the groups
being exactly the rendered state, the stored pattern, the stored direction
and the rendered new state. -/
theorem matchRuleLine_renderRule {r : Rule} (hWF : RuleWF r) :
    matchRuleLine (renderRule r) =
      some ((Nat.repr r.state).toList, r.surroundings_pattern, r.direction,
        (Nat.repr r.new_state).toList) := by
  obtain ⟨hs99, hn99, hplen, hpsix, hdirk⟩ := hWF
  obtain ⟨q1, q2, q3, q4, hq⟩ := length_eq_four hplen
  have hd1dig := repr_digits hs99
  have hd1ne := repr_ne_nil hs99
  have hd2dig := repr_digits hn99
  have hd2ne := repr_ne_nil hn99
  have hq1 : q1 ∈ sixList := hpsix q1 (by rw [hq]; simp)
  have hq2 : q2 ∈ sixList := hpsix q2 (by rw [hq]; simp)
  have hq3 : q3 ∈ sixList := hpsix q3 (by rw [hq]; simp)
  have hq4 : q4 ∈ sixList := hpsix q4 (by rw [hq]; simp)
  have hdns : isPySpace r.direction = false := dirKeys_not_space _ hdirk
  obtain ⟨e1, es, hd2⟩ := List.exists_cons_of_ne_nil hd2ne
  have he1 : isDigitC e1 = true := hd2dig e1 (by rw [hd2]; simp)
  have hform : renderRule r =
      (Nat.repr r.state).toList ++ ' ' :: q1 :: q2 :: q3 :: q4 :: ' ' :: '-' :: '>' ::
        ' ' :: r.direction :: ' ' :: (Nat.repr r.new_state).toList := by
    unfold renderRule
    rw [hq]
    simp
  unfold matchRuleLine
  dsimp only
  rw [hform]
  rw [takeWhile_append_cons hd1dig (by decide)]
  rw [dropWhile_append_cons hd1dig (by decide)]
  rw [show (' ' :: q1 :: q2 :: q3 :: q4 :: ' ' :: '-' :: '>' :: ' ' :: r.direction ::
      ' ' :: (Nat.repr r.new_state).toList) =
      [' '] ++ q1 :: (q2 :: q3 :: q4 :: ' ' :: '-' :: '>' :: ' ' :: r.direction ::
      ' ' :: (Nat.repr r.new_state).toList) from rfl]
  rw [takeWhile_append_cons (by decide) (sixList_not_space q1 hq1)]
  rw [dropWhile_append_cons (by decide) (sixList_not_space q1 hq1)]
  rw [if_neg (by simpa using hd1ne)]
  dsimp only
  rw [if_pos (by simp [sixList_classChar q1 hq1, sixList_classChar q2 hq2,
    sixList_classChar q3 hq3, sixList_classChar q4 hq4])]
  rw [show List.dropWhile isPySpace (' ' :: '-' :: '>' :: ' ' :: r.direction ::
      ' ' :: (Nat.repr r.new_state).toList) = '-' :: '>' :: ' ' :: r.direction ::
      ' ' :: (Nat.repr r.new_state).toList from by
    rw [List.dropWhile_cons_of_pos (by decide), List.dropWhile_cons_of_neg (by decide)]]
  dsimp only
  rw [if_pos (show ('-' : Char) = '-' ∧ ('>' : Char) = '>' from ⟨rfl, rfl⟩)]
  rw [show List.dropWhile isPySpace (' ' :: r.direction :: ' ' ::
      (Nat.repr r.new_state).toList) = r.direction :: ' ' ::
      (Nat.repr r.new_state).toList from by
    rw [List.dropWhile_cons_of_pos (by decide), List.dropWhile_cons_of_neg (by simp [hdns])]]
  dsimp only
  rw [if_pos (dirKeys_dirChar _ hdirk)]
  rw [show List.takeWhile isPySpace (' ' :: (Nat.repr r.new_state).toList) = [' '] from by
    rw [hd2, show (' ' :: e1 :: es) = [' '] ++ e1 :: es from rfl]
    rw [takeWhile_append_cons (by decide) (isDigitC_not_space he1)]]
  rw [show List.dropWhile isPySpace (' ' :: (Nat.repr r.new_state).toList) =
      (Nat.repr r.new_state).toList from by
    rw [hd2, show (' ' :: e1 :: es) = [' '] ++ e1 :: es from rfl]
    rw [dropWhile_append_cons (by decide) (isDigitC_not_space he1)]]
  rw [takeWhile_all hd2dig, dropWhile_all hd2dig]
  rw [if_neg (by simpa using hd2ne)]
  rw [if_pos (show (List.dropWhile isPySpace ([] : List Char)).isEmpty = true from rfl)]
  rw [hq]

/-- Comment-stripping and whitespace-stripping leave a rendered rule line
unchanged. -/
theorem renderRule_strip {r : Rule} (h : RuleWF r) :
    pyStrip ((renderRule r).takeWhile (fun c => c != '#')) = renderRule r := by
  rw [takeWhile_all (fun c hc => by simpa using renderRule_no_hash h c hc)]
  apply pyStrip_eq_self
  · intro c hc
    obtain ⟨hs99, hn99, hplen, hpsix, hdirk⟩ := h
    obtain ⟨a, as, ha⟩ := List.exists_cons_of_ne_nil (repr_ne_nil hs99)
    unfold renderRule at hc
    rw [ha] at hc
    simp only [List.cons_append, List.head?_cons, Option.some.injEq] at hc
    subst hc
    exact isDigitC_not_space (repr_digits hs99 a (by rw [ha]; simp))
  · intro c hc
    obtain ⟨hs99, hn99, hplen, hpsix, hdirk⟩ := h
    have hds2 := repr_ne_nil hn99
    have hsome : ((Nat.repr r.new_state).toList.getLast?).isSome := by
      rw [List.getLast?_isSome]
      exact hds2
    obtain ⟨l0, hl0⟩ := Option.isSome_iff_exists.mp hsome
    have hshape : renderRule r =
        ((Nat.repr r.state).toList ++ ' ' :: r.surroundings_pattern ++
          [' ', '-', '>', ' ', r.direction, ' ']) ++ (Nat.repr r.new_state).toList := by
      unfold renderRule
      simp
    rw [hshape, List.getLast?_append, hl0] at hc
    simp only [Option.or_some, Option.some.injEq] at hc
    subst hc
    exact isDigitC_not_space (repr_digits hn99 _ (List.mem_of_getLast?_eq_some hl0))

/-- A rendered rule is a non-empty line. -/
theorem renderRule_ne_nil (r : Rule) : renderRule r ≠ [] := by
  unfold renderRule
  intro habs
  have := congrArg List.length habs
  simp at this

/-- Parsing one rendered well-formed rule line consumes it into the same
rule with the current line number. -/
theorem parseLinesAux_renderRule_cons {r : Rule} (h : RuleWF r)
    (rest : List (List Char)) (ln : Nat) :
    parseLinesAux (renderRule r :: rest) ln =
      (parseLinesAux rest (ln + 1)).map (fun rs => { r with line_number := ln } :: rs) := by
  obtain ⟨hs99, hn99, hplen, hpsix, hdirk⟩ := h
  conv_lhs => unfold parseLinesAux
  dsimp only
  rw [renderRule_strip ⟨hs99, hn99, hplen, hpsix, hdirk⟩]
  rw [if_neg (by simpa using renderRule_ne_nil r)]
  rw [matchRuleLine_renderRule ⟨hs99, hn99, hplen, hpsix, hdirk⟩]
  dsimp only
  rw [digitsToNat_repr_of_le hs99, digitsToNat_repr_of_le hn99]
  rw [if_neg (by omega), if_neg (by omega)]
  rw [normChars_toUpper_six _ 0 hpsix (by omega)]
  rw [dirKeys_toUpper _ hdirk]
  cases parseLinesAux rest (ln + 1) <;> rfl

/-- Re-parsing after rendering renumbers the rules consecutively. -/
def renumber : List Rule → Nat → List Rule
  | [], _ => []
  | r :: rest, ln => { r with line_number := ln } :: renumber rest (ln + 1)

/-- The semantic content of a rule: everything except the bookkeeping
`line_number`. -/
def ruleSem (r : Rule) : Nat × List Char × Char × Nat :=
  (r.state, r.surroundings_pattern, r.direction, r.new_state)

theorem renumber_sem : ∀ (rs : List Rule) (ln : Nat),
    (renumber rs ln).map ruleSem = rs.map ruleSem := by
  intro rs
  induction rs with
  | nil => intro ln; rfl
  | cons r rest ih =>
      intro ln
      unfold renumber
      rw [List.map_cons, List.map_cons, ih]
      rfl

/-- Parsing the rendering of a list of well-formed rules succeeds and yields
the same rules renumbered from the starting line. -/
theorem parseLinesAux_map_renderRule :
    ∀ (rs : List Rule) (ln : Nat), (∀ r ∈ rs, RuleWF r) →
      parseLinesAux (rs.map renderRule) ln = .ok (renumber rs ln) := by
  intro rs
  induction rs with
  | nil => intro ln h; rfl
  | cons r rest ih =>
      intro ln h
      rw [List.map_cons, parseLinesAux_renderRule_cons (h r (by simp))]
      rw [ih (ln + 1) (fun x hx => h x (by simp [hx]))]
      rfl

/-! ### Claim C5 (corrected)

`Rule` is a dataclass, so Python `==` compares all fields including
`line_number`.  Parsing records source line numbers; rendering drops
comments and blank lines, so re-parsing renumbers the rules and the
round-tripped list is `!=` the original whenever a comment or blank line
precedes a rule.  The round trip does hold for the semantic fields. -/

/-- A valid rule text whose only rule sits on line 2, after a comment. -/
def c5Text : List Char := "# sweep north\n0 x*** -> N 0".toList

/-- Counterexample for C5 as stated: on `c5Text` (a valid text containing a
comment line), `parse(render(parse(text)))` differs from `parse(text)` —
the rule's `line_number` drops from 2 to 1, and dataclass equality compares
it. -/
theorem C5_counterexample :
    parse_rules c5Text = .ok [⟨0, ['x', '*', '*', '*'], 'N', 0, 2⟩] ∧
    parse_rules (renderRules [⟨0, ['x', '*', '*', '*'], 'N', 0, 2⟩]) =
      .ok [⟨0, ['x', '*', '*', '*'], 'N', 0, 1⟩] ∧
    parse_rules (renderRules [⟨0, ['x', '*', '*', '*'], 'N', 0, 2⟩]) ≠
      parse_rules c5Text := by
  refine ⟨by decide, by decide, by decide⟩

/-- Claim C5 (amended): for every valid rule text,
`parse(render(parse(text)))` succeeds and agrees with `parse(text)` on
every semantic field (state, pattern, direction, new state); only the
`line_number` bookkeeping field is renumbered, because rendering drops
comments and blank lines. -/
theorem C5_parse_render_roundtrip (t : List Char) (rs : List Rule)
    (h : parse_rules t = .ok rs) :
    ∃ rs2, parse_rules (renderRules rs) = .ok rs2 ∧
      rs2.map ruleSem = rs.map ruleSem := by
  have hWF : ∀ r ∈ rs, RuleWF r := parseLinesAux_WF _ _ _ h
  cases rs with
  | nil => exact ⟨[], by decide, rfl⟩
  | cons r0 rtail =>
      refine ⟨renumber (r0 :: rtail) 1, ?_, renumber_sem _ _⟩
      unfold parse_rules renderRules
      rw [splitNl_joinNl _ (by simp) ?nonl]
      case nonl =>
        intro l hl
        rw [List.mem_map] at hl
        obtain ⟨r, hr, rfl⟩ := hl
        exact renderRule_no_nl (hWF r hr)
      exact parseLinesAux_map_renderRule _ 1 hWF

/-- Witness for the amended C5 at a concrete one-rule text. -/
theorem C5_parse_render_roundtrip_witness :
    ∃ rs2, parse_rules (renderRules [⟨0, ['x', '*', '*', '*'], 'N', 0, 1⟩]) = .ok rs2 ∧
      rs2.map ruleSem = [⟨0, ['x', '*', '*', '*'], 'N', 0, 1⟩].map ruleSem :=
  C5_parse_render_roundtrip ("0 x*** -> N 0".toList)
    [⟨0, ['x', '*', '*', '*'], 'N', 0, 1⟩] (by decide)

/-! ### Claim C9 -/

/-- The claim's characterization of an offending line: after comment
stripping it is non-blank, and either it fails the rule grammar or one of
its numeric fields exceeds 99. -/
def lineBad (line : List Char) : Bool :=
  !(pyStrip (line.takeWhile (fun c => c != '#'))).isEmpty &&
    (match matchRuleLine (pyStrip (line.takeWhile (fun c => c != '#'))) with
     | none => true
     | some (d1, _, _, d2) =>
         decide (99 < digitsToNat d1) || decide (99 < digitsToNat d2))

/-- The parser fails iff some line is bad, and on failure the error message
embeds the 1-based number of the first bad line. -/
theorem parseLinesAux_error_iff :
    ∀ (lines : List (List Char)) (ln : Nat),
      ((∃ e, parseLinesAux lines ln = .error e) ↔
        ∃ line ∈ lines, lineBad line = true) ∧
      (∀ e, parseLinesAux lines ln = .error e →
        ∃ k line, lines[k]? = some line ∧ lineBad line = true ∧
          List.IsInfix (Nat.repr (ln + k)).toList e.toList) := by
  intro lines
  induction lines with
  | nil =>
      intro ln
      constructor
      · constructor
        · rintro ⟨e, he⟩
          exact absurd he (by simp [parseLinesAux])
        · rintro ⟨line, hline, -⟩
          exact absurd hline (by simp)
      · intro e he
        exact absurd he (by simp [parseLinesAux])
  | cons line rest ih =>
      intro ln
      obtain ⟨ih1, ih2⟩ := ih (ln + 1)
      by_cases hempty : (pyStrip (line.takeWhile (fun c => c != '#'))).isEmpty = true
      · have hbad : lineBad line = false := by simp [lineBad, hempty]
        have hstep : parseLinesAux (line :: rest) ln = parseLinesAux rest (ln + 1) := by
          conv_lhs => unfold parseLinesAux
          dsimp only
          rw [if_pos hempty]
        constructor
        · rw [hstep, ih1]
          constructor
          · rintro ⟨l0, hl0, hb⟩
            exact ⟨l0, List.mem_cons_of_mem _ hl0, hb⟩
          · rintro ⟨l0, hl0, hb⟩
            rcases List.mem_cons.mp hl0 with rfl | hl0
            · exact absurd hb (by simp [hbad])
            · exact ⟨l0, hl0, hb⟩
        · intro e he
          rw [hstep] at he
          obtain ⟨k, l0, hk, hb, hinf⟩ := ih2 e he
          refine ⟨k + 1, l0, by simpa using hk, hb, ?_⟩
          rw [show ln + (k + 1) = ln + 1 + k from by omega]
          exact hinf
      · have hemptyF : (pyStrip (line.takeWhile (fun c => c != '#'))).isEmpty = false := by
          simpa using hempty
        cases hm : matchRuleLine (pyStrip (line.takeWhile (fun c => c != '#'))) with
        | none =>
            have hbad : lineBad line = true := by simp [lineBad, hemptyF, hm]
            have hstep : parseLinesAux (line :: rest) ln =
                .error (syntaxErrMsg ln (pyStrip (line.takeWhile (fun c => c != '#')))) := by
              conv_lhs => unfold parseLinesAux
              dsimp only
              rw [if_neg (by simp [hemptyF]), hm]
            constructor
            · constructor
              · intro _
                exact ⟨line, by simp, hbad⟩
              · intro _
                exact ⟨_, hstep⟩
            · intro e he
              rw [hstep] at he
              obtain rfl := (Except.error.inj he).symm
              refine ⟨0, line, by simp, hbad, ?_⟩
              refine ⟨"Invalid rule syntax at line ".toList,
                ": ".toList ++ squote :: pyStrip (line.takeWhile (fun c => c != '#')) ++
                  squote :: "\nExpected format: STATE SURROUNDINGS -> DIRECTION NEWSTATE\nExample: 0 x*** -> N 0".toList, ?_⟩
              show _ = (syntaxErrMsg ln _).toList
              unfold syntaxErrMsg
              simp
        | some quad =>
            obtain ⟨d1, pat, dirq⟩ := quad
            obtain ⟨dir, d2⟩ := dirq
            by_cases hst : 99 < digitsToNat d1
            · have hbad : lineBad line = true := by simp [lineBad, hemptyF, hm, hst]
              have hstep : parseLinesAux (line :: rest) ln =
                  .error (stateErrMsg (digitsToNat d1) ln) := by
                conv_lhs => unfold parseLinesAux
                dsimp only
                rw [if_neg (by simp [hemptyF]), hm]
                dsimp only
                rw [if_pos hst]
              constructor
              · constructor
                · intro _
                  exact ⟨line, by simp, hbad⟩
                · intro _
                  exact ⟨_, hstep⟩
              · intro e he
                rw [hstep] at he
                obtain rfl := (Except.error.inj he).symm
                refine ⟨0, line, by simp, hbad, ?_⟩
                refine ⟨"Invalid state ".toList ++ (Nat.repr (digitsToNat d1)).toList ++
                  " at line ".toList, ". State must be between 0 and 99.".toList, ?_⟩
                show _ = (stateErrMsg _ _).toList
                unfold stateErrMsg
                simp
            · by_cases hnew : 99 < digitsToNat d2
              · have hbad : lineBad line = true := by simp [lineBad, hemptyF, hm, hnew]
                have hstep : parseLinesAux (line :: rest) ln =
                    .error (newStateErrMsg (digitsToNat d2) ln) := by
                  conv_lhs => unfold parseLinesAux
                  dsimp only
                  rw [if_neg (by simp [hemptyF]), hm]
                  dsimp only
                  rw [if_neg hst, if_pos hnew]
                constructor
                · constructor
                  · intro _
                    exact ⟨line, by simp, hbad⟩
                  · intro _
                    exact ⟨_, hstep⟩
                · intro e he
                  rw [hstep] at he
                  obtain rfl := (Except.error.inj he).symm
                  refine ⟨0, line, by simp, hbad, ?_⟩
                  refine ⟨"Invalid new_state ".toList ++ (Nat.repr (digitsToNat d2)).toList ++
                    " at line ".toList, ". State must be between 0 and 99.".toList, ?_⟩
                  show _ = (newStateErrMsg _ _).toList
                  unfold newStateErrMsg
                  simp
              · have hbad : lineBad line = false := by
                  simp [lineBad, hemptyF, hm, hst, hnew]
                obtain ⟨hd1ne, hd1dig, hplen, hpclass, hdirc, hd2ne, hd2dig⟩ :=
                  matchRuleLine_some_facts hm
                obtain ⟨out, hout, houtlen, houtsix⟩ :=
                  @normChars_of_class ln pat 0 hpclass (by omega)
                have hstep : parseLinesAux (line :: rest) ln =
                    (parseLinesAux rest (ln + 1)).map
                      (fun rs => Rule.mk (digitsToNat d1) out dir.toUpper
                        (digitsToNat d2) ln :: rs) := by
                  conv_lhs => unfold parseLinesAux
                  dsimp only
                  rw [if_neg (by simp [hemptyF]), hm]
                  dsimp only
                  rw [if_neg hst, if_neg hnew, hout]
                  cases parseLinesAux rest (ln + 1) <;> rfl
                have hmaperr : ∀ e, parseLinesAux (line :: rest) ln = .error e ↔
                    parseLinesAux rest (ln + 1) = .error e := by
                  intro e
                  rw [hstep]
                  cases parseLinesAux rest (ln + 1) <;> simp [Except.map]
                constructor
                · constructor
                  · rintro ⟨e, he⟩
                    obtain ⟨l0, hl0, hb⟩ := ih1.mp ⟨e, (hmaperr e).mp he⟩
                    exact ⟨l0, List.mem_cons_of_mem _ hl0, hb⟩
                  · rintro ⟨l0, hl0, hb⟩
                    rcases List.mem_cons.mp hl0 with rfl | hl0
                    · exact absurd hb (by simp [hbad])
                    · obtain ⟨e, he⟩ := ih1.mpr ⟨l0, hl0, hb⟩
                      exact ⟨e, (hmaperr e).mpr he⟩
                · intro e he
                  obtain ⟨k, l0, hk, hb, hinf⟩ := ih2 e ((hmaperr e).mp he)
                  refine ⟨k + 1, l0, by simpa using hk, hb, ?_⟩
                  rw [show ln + (k + 1) = ln + 1 + k from by omega]
                  exact hinf

/-- Claim C9: `parse_rules` raises an error exactly when some line, after
comment stripping, is non-blank and either fails the rule grammar or has a
STATE/NEWSTATE above 99; the error message embeds the offending (1-based)
line number; no partial rule list is ever returned (`Except` carries either
the full list or only the error); and on success every pattern is a
4-character string over the normalized alphabet — lowercase `x` for open,
uppercase N/E/W/S for walls, `*` for wildcards. -/
theorem C9_parse_error_iff_bad_line (t : List Char) :
    ((∃ e, parse_rules t = .error e) ↔ ∃ line ∈ splitNl t, lineBad line = true) ∧
    (∀ e, parse_rules t = .error e →
      ∃ k line, (splitNl t)[k]? = some line ∧ lineBad line = true ∧
        List.IsInfix (Nat.repr (1 + k)).toList e.toList) ∧
    (∀ rs, parse_rules t = .ok rs → ∀ r ∈ rs,
      r.surroundings_pattern.length = 4 ∧
      ∀ c ∈ r.surroundings_pattern, c ∈ (['N', 'E', 'W', 'S', 'x', '*'] : List Char)) := by
  obtain ⟨h1, h2⟩ := parseLinesAux_error_iff (splitNl t) 1
  refine ⟨h1, h2, ?_⟩
  intro rs h r hr
  have hWF := parseLinesAux_WF _ _ _ h r hr
  exact ⟨hWF.2.2.1, hWF.2.2.2.1⟩

/-- Witness for C9: a syntactically invalid one-line text produces an error
carrying line number 1. -/
theorem C9_parse_error_iff_bad_line_witness :
    ∃ k line, (splitNl ("garbage".toList))[k]? = some line ∧ lineBad line = true ∧
      List.IsInfix (Nat.repr (1 + k)).toList (syntaxErrMsg 1 ("garbage".toList)).toList :=
  (C9_parse_error_iff_bad_line ("garbage".toList)).2.1
    (syntaxErrMsg 1 ("garbage".toList)) (by decide)

end PicobotSim
